import Mathlib

/-!
Verification of the opx secret-retrieval daemon against its
natural-language specification.

Go strings are modelled as `List Char` (`GoString`), Go `time.Time`
instants and `time.Duration` values as integers, Go maps as association
lists.  Each definition is a direct translation of the corresponding Go
function; file and function names from the source are kept where Lean
allows it.
-/

set_option maxHeartbeats 1000000

namespace Opx

/-- A Go string, modelled as its list of characters. -/
abbrev GoString := List Char

/-- Conversion from Lean string literals to the `GoString` model. -/
def gs (s : String) : GoString := s.data

/-- Model of Go `strings.HasPrefix s p`. -/
def goHasPrefix (s p : GoString) : Bool := p.isPrefixOf s

/-- Model of Go `strings.HasSuffix s suf`. -/
def goHasSuffix (s suf : GoString) : Bool := suf.isSuffixOf s

/-- Model of Go `strings.TrimSuffix s suf`. -/
def goTrimSuffix (s suf : GoString) : GoString :=
  if goHasSuffix s suf then s.take (s.length - suf.length) else s

/-- Model of Go `strings.ContainsAny s chars`. -/
def goContainsAny (s chars : GoString) : Bool := s.any (fun c => c ∈ chars)

/-- Model of Go `strings.Join xs sep` (arguments reordered). -/
def goJoin (sep : GoString) (xs : List GoString) : GoString := List.intercalate sep xs

/-- Go `unicode.IsSpace`: the Unicode white-space code points. -/
def goIsSpace (c : Char) : Bool :=
  let n := c.toNat
  (0x09 ≤ n ∧ n ≤ 0x0D) ∨ n = 0x20 ∨ n = 0x85 ∨ n = 0xA0 ∨ n = 0x1680 ∨
  (0x2000 ≤ n ∧ n ≤ 0x200A) ∨ n = 0x2028 ∨ n = 0x2029 ∨ n = 0x202F ∨
  n = 0x205F ∨ n = 0x3000

/-- Model of Go `strings.TrimSpace`. -/
def goTrimSpace (s : GoString) : GoString :=
  (s.dropWhile goIsSpace).reverse.dropWhile goIsSpace |>.reverse

/-!
## Request fingerprint (Server.readOneWithFlags, cache-key computation)

Go source:
```
cacheKey := ref
if len(flags) > 0 {
    cacheKey = ref + "|flags:" + strings.Join(flags, ",")
}
```
-/

/-- The cache / single-flight fingerprint computed by `Server.readOneWithFlags`. -/
def cacheKey (ref : GoString) (flags : List GoString) : GoString :=
  if 0 < flags.length then ref ++ gs "|flags:" ++ goJoin (gs ",") flags else ref

/-!
## SHA-256 (Go `crypto/sha256`, standard-library collaborator)

`policy.sha256Hex` hashes the subject's path with SHA-256 and hex-encodes
the digest.  The hash itself lives in the Go standard library; it is
modelled here bit-for-bit (FIPS 180-4) over the UTF-8 bytes of the string,
as `[]byte(s)` produces in Go.
-/

/-- UTF-8 encoding of one character, as Go `[]byte(string)` produces. -/
def utf8Bytes (c : Char) : List Nat :=
  let n := c.toNat
  if n < 0x80 then [n]
  else if n < 0x800 then [0xC0 ||| (n >>> 6), 0x80 ||| (n &&& 0x3F)]
  else if n < 0x10000 then
    [0xE0 ||| (n >>> 12), 0x80 ||| ((n >>> 6) &&& 0x3F), 0x80 ||| (n &&& 0x3F)]
  else
    [0xF0 ||| (n >>> 18), 0x80 ||| ((n >>> 12) &&& 0x3F),
     0x80 ||| ((n >>> 6) &&& 0x3F), 0x80 ||| (n &&& 0x3F)]

/-- UTF-8 byte sequence of a Go string. -/
def utf8 (s : GoString) : List Nat := (s.map utf8Bytes).flatten

namespace SHA256

def mask32 : Nat := 0xffffffff

def rotr (n x : Nat) : Nat := ((x >>> n) ||| (x <<< (32 - n))) &&& mask32

def add32 (a b : Nat) : Nat := (a + b) &&& mask32

def K : List Nat :=
  [1116352408, 1899447441, 3049323471, 3921009573,
   961987163, 1508970993, 2453635748, 2870763221,
   3624381080, 310598401, 607225278, 1426881987,
   1925078388, 2162078206, 2614888103, 3248222580,
   3835390401, 4022224774, 264347078, 604807628,
   770255983, 1249150122, 1555081692, 1996064986,
   2554220882, 2821834349, 2952996808, 3210313671,
   3336571891, 3584528711, 113926993, 338241895,
   666307205, 773529912, 1294757372, 1396182291,
   1695183700, 1986661051, 2177026350, 2456956037,
   2730485921, 2820302411, 3259730800, 3345764771,
   3516065817, 3600352804, 4094571909, 275423344,
   430227734, 506948616, 659060556, 883997877,
   958139571, 1322822218, 1537002063, 1747873779,
   1955562222, 2024104815, 2227730452, 2361852424,
   2428436474, 2756734187, 3204031479, 3329325298]

def initH : List Nat :=
  [1779033703, 3144134277, 1013904242, 2773480762,
   1359893119, 2600822924, 528734635, 1541459225]

/-- Big-endian bytes of the 64-bit message bit length. -/
def lenBytes (bitLen : Nat) : List Nat :=
  [(bitLen >>> 56) &&& 0xff, (bitLen >>> 48) &&& 0xff, (bitLen >>> 40) &&& 0xff,
   (bitLen >>> 32) &&& 0xff, (bitLen >>> 24) &&& 0xff, (bitLen >>> 16) &&& 0xff,
   (bitLen >>> 8) &&& 0xff, bitLen &&& 0xff]

/-- Merkle–Damgård padding to a multiple of 64 bytes. -/
def pad (msg : List Nat) : List Nat :=
  let z := (119 - msg.length % 64) % 64
  msg ++ 0x80 :: List.replicate z 0 ++ lenBytes (8 * msg.length)

/-- Big-endian 32-bit words from a byte list. -/
def toWords : List Nat → List Nat
  | b0 :: b1 :: b2 :: b3 :: rest =>
    ((((b0 <<< 8) ||| b1) <<< 8 ||| b2) <<< 8 ||| b3) :: toWords rest
  | _ => []

/-- 64-byte blocks of a padded message. -/
def chunks (l : List Nat) : List (List Nat) :=
  if h : l = [] then [] else l.take 64 :: chunks (l.drop 64)
termination_by l.length
decreasing_by
  simp only [List.length_drop]
  have hl : 0 < l.length := List.length_pos.mpr h
  omega

def smallSigma0 (x : Nat) : Nat := rotr 7 x ^^^ rotr 18 x ^^^ (x >>> 3)

def smallSigma1 (x : Nat) : Nat := rotr 17 x ^^^ rotr 19 x ^^^ (x >>> 10)

def bigSigma0 (x : Nat) : Nat := rotr 2 x ^^^ rotr 13 x ^^^ rotr 22 x

def bigSigma1 (x : Nat) : Nat := rotr 6 x ^^^ rotr 11 x ^^^ rotr 25 x

/-- Message-schedule extension: append `fuel` further words. -/
def extendWords (w : List Nat) : Nat → List Nat
  | 0 => w
  | n + 1 =>
    let i := w.length
    let nw := (w.getD (i - 16) 0 + smallSigma0 (w.getD (i - 15) 0) +
               w.getD (i - 7) 0 + smallSigma1 (w.getD (i - 2) 0)) &&& mask32
    extendWords (w ++ [nw]) n

/-- One compression round over the 8-word working state. -/
def compressRound (st : List Nat) (kw : Nat × Nat) : List Nat :=
  match st with
  | [a, b, c, d, e, f, g, h] =>
    let ch := (e &&& f) ^^^ ((mask32 ^^^ e) &&& g)
    let t1 := (h + bigSigma1 e + ch + kw.1 + kw.2) &&& mask32
    let maj := (a &&& b) ^^^ (a &&& c) ^^^ (b &&& c)
    let t2 := (bigSigma0 a + maj) &&& mask32
    [add32 t1 t2, a, b, c, add32 d t1, e, f, g]
  | other => other

def processBlock (hs : List Nat) (block : List Nat) : List Nat :=
  let w := extendWords (toWords block) 48
  let st := (K.zip w).foldl compressRound hs
  (hs.zip st).map fun p => add32 p.1 p.2

/-- SHA-256 digest bytes of a byte message. -/
def digest (msg : List Nat) : List Nat :=
  let hs := (chunks (pad msg)).foldl processBlock initH
  (hs.map fun w => [(w >>> 24) &&& 0xff, (w >>> 16) &&& 0xff, (w >>> 8) &&& 0xff, w &&& 0xff]).flatten

end SHA256

def hexChar (n : Nat) : Char :=
  if n < 10 then Char.ofNat ('0'.toNat + n) else Char.ofNat ('a'.toNat + n - 10)

def byteHex (b : Nat) : List Char := [hexChar (b >>> 4), hexChar (b &&& 0xf)]

/-- `policy.sha256Hex`: hex-encoded SHA-256 of a string's bytes. -/
def sha256Hex (s : GoString) : GoString := ((SHA256.digest (utf8 s)).map byteHex).flatten

/-!
## Path canonicalisation (Go `path/filepath.Clean`, standard-library collaborator)

Modelled from the spec (§4.5): canonicalisation resolves `.` and `..`
segments and collapses separators, with no symbolic-link resolution; this
is Go's documented `Clean` algorithm for slash-separated paths.
-/

/-- Split a string on a separator character (empty segments kept). -/
def splitOnChar (c : Char) (s : GoString) : List GoString :=
  s.foldr
    (fun ch acc =>
      match acc with
      | [] => [[ch]]
      | cur :: rest => if ch = c then [] :: cur :: rest else (ch :: cur) :: rest)
    [[]]

/-- One step of `Clean`'s segment processing (stack held reversed). -/
def cleanStep (rooted : Bool) (acc : List GoString) (seg : GoString) : List GoString :=
  if seg = [] ∨ seg = gs "." then acc
  else if seg = gs ".." then
    match acc with
    | t :: rest => if t = gs ".." then seg :: t :: rest else rest
    | [] => if rooted then [] else [seg]
  else seg :: acc

/-- Go `filepath.Clean` for slash-separated paths. -/
def pathClean (p : GoString) : GoString :=
  if p = [] then gs "."
  else
    let rooted := goHasPrefix p (gs "/")
    let segs := ((splitOnChar '/' p).foldl (cleanStep rooted) []).reverse
    let body := goJoin (gs "/") segs
    if rooted then '/' :: body
    else if body = [] then gs "." else body

/-!
## Policy evaluator (internal/policy/policy.go)
-/

/-- `policy.Rule`: one allow rule. -/
structure Rule where
  path : GoString
  pathSha256 : GoString
  pid : Int
  refs : List GoString
deriving DecidableEq

/-- `policy.Policy`. -/
structure Policy where
  allow : List Rule
  defaultDeny : Bool
deriving DecidableEq

/-- `policy.Subject`: the caller's identity as the evaluator sees it. -/
structure Subject where
  pid : Int
  path : GoString
deriving DecidableEq

/-- `policy.samePath`: canonical path equality; empty paths never match. -/
def samePath (a b : GoString) : Bool :=
  if a = [] ∨ b = [] then false else pathClean a = pathClean b

/-- `policy.matchRef`: the pattern loop over a rule's `refs`. -/
def matchRef (allowed : List GoString) (ref : GoString) : Bool :=
  match allowed with
  | [] => false
  | a :: rest =>
    if a = gs "*" then true
    else if goHasSuffix a (gs "*") then
      if goHasPrefix ref (goTrimSuffix a (gs "*")) then true else matchRef rest ref
    else if ref = a then true
    else matchRef rest ref

/-- The rule-scanning loop inside `policy.Allowed`. -/
def allowedLoop (dd : Bool) (subj : Subject) (ref : GoString) : List Rule → Bool
  | [] => !dd
  | r :: rs =>
    if r.pid ≠ 0 ∧ r.pid ≠ subj.pid then allowedLoop dd subj ref rs
    else if r.path ≠ [] ∧ samePath r.path subj.path = false then allowedLoop dd subj ref rs
    else if r.pathSha256 ≠ [] ∧ r.pathSha256 ≠ sha256Hex subj.path then allowedLoop dd subj ref rs
    else if matchRef r.refs ref then true
    else allowedLoop dd subj ref rs

/-- `policy.Allowed`. -/
def Allowed (pol : Policy) (subj : Subject) (ref : GoString) : Bool :=
  if pol.allow.length = 0 ∧ pol.defaultDeny = false then true
  else allowedLoop pol.defaultDeny subj ref pol.allow

/-- Pattern matching as the claim words it: a pattern matches iff it equals
the reference, is `*`, or ends in `*` and the reference starts with the
preceding prefix. -/
def patternMatchesSpec (ref pat : GoString) : Bool :=
  decide (pat = ref) || decide (pat = gs "*") ||
    (goHasSuffix pat (gs "*") && goHasPrefix ref (goTrimSuffix pat (gs "*")))

/-- Rule matching as the claim words it: every present criterion matches the
subject and some pattern matches the reference. -/
def ruleMatchesSpec (r : Rule) (subj : Subject) (ref : GoString) : Bool :=
  (decide (r.pid = 0) || decide (r.pid = subj.pid)) &&
  (decide (r.path = []) || samePath r.path subj.path) &&
  (decide (r.pathSha256 = []) || decide (r.pathSha256 = sha256Hex subj.path)) &&
  r.refs.any (patternMatchesSpec ref)

/-- The policy evaluator as the claim words it. -/
def allowedSpec (pol : Policy) (subj : Subject) (ref : GoString) : Bool :=
  if pol.allow = [] ∧ pol.defaultDeny = false then true
  else if pol.allow.any (fun r => ruleMatchesSpec r subj ref) then true
  else !pol.defaultDeny

/-!
## Cache (internal/cache/cache.go)

Go `time.Time` instants are modelled as integers (Unix seconds);
`time.Now().After(t)` is strict `now > t`.  The Go map is an association
list keyed by fingerprint; `SafeString` zeroisation is a memory effect
outside the model.
-/

/-- `cache.entry`. -/
structure CacheEntry where
  v : GoString
  exp : Int
  cached : Int
deriving DecidableEq

/-- `cache.Cache`: data map, fixed TTL, hit/miss counters, in-flight gauge. -/
structure Cache where
  data : List (GoString × CacheEntry)
  ttl : Int
  hits : Int
  misses : Int
  inflight : Int
deriving DecidableEq

namespace Cache

def lookup (c : Cache) (key : GoString) : Option CacheEntry :=
  (c.data.find? fun p => decide (p.1 = key)).map (·.2)

/-- `Cache.Get`: miss if absent or `now` is strictly after the expiry. -/
def Get (c : Cache) (key : GoString) (now : Int) : Option (GoString × Int × Int) :=
  match c.lookup key with
  | none => none
  | some e => if now > e.exp then none else some (e.v, e.exp, e.cached)

/-- `Cache.Set`: stamp `cached = now`, `exp = now + ttl`, replacing any
existing entry for the key. -/
def Set (c : Cache) (key v : GoString) (now : Int) : Cache :=
  { c with data := (key, ⟨v, now + c.ttl, now⟩) :: c.data.filter fun p => !decide (p.1 = key) }

def IncHit (c : Cache) : Cache := { c with hits := c.hits + 1 }

def IncMiss (c : Cache) : Cache := { c with misses := c.misses + 1 }

def IncInFlight (c : Cache) : Cache := { c with inflight := c.inflight + 1 }

def DecInFlight (c : Cache) : Cache :=
  if c.inflight > 0 then { c with inflight := c.inflight - 1 } else c

/-- `Cache.Stats`: (size, hits, misses, inflight). -/
def Stats (c : Cache) : Nat × Int × Int × Int := (c.data.length, c.hits, c.misses, c.inflight)

/-- `Cache.CleanupExpired`: drop entries with `now` strictly after expiry. -/
def CleanupExpired (c : Cache) (now : Int) : Cache × Nat :=
  ({ c with data := c.data.filter fun p => !decide (now > p.2.exp) },
   (c.data.filter fun p => decide (now > p.2.exp)).length)

/-- `Cache.Clear`: drop everything. -/
def Clear (c : Cache) : Cache × Nat := ({ c with data := [] }, c.data.length)

def TTL (c : Cache) : Int := c.ttl

end Cache

/-!
## Session manager (session package: state.go, config.go, manager.go)

The state enumeration and the `Config` struct are translated from the
session package sources bundled with `session/manager_test.go`; the
manager is translated from `manager.go`.  The unlock callback shells out
to the external 1Password CLI; its outcome is a boolean parameter
`unlockOk` of each operation that may invoke it.
-/

/-- `session.SessionState`: the enum
{SessionUnknown, SessionAuthenticated, SessionLocked, SessionExpired},
in declaration (iota) order. -/
inductive SessionState
  | unknown
  | authenticated
  | locked
  | expired
deriving DecidableEq

/-- `SessionState.IsActive`: `s == SessionAuthenticated`. -/
def SessionState.IsActive : SessionState → Bool
  | .authenticated => true
  | _ => false

/-- `SessionState.RequiresUnlock`: `s == SessionLocked || s == SessionExpired`. -/
def SessionState.RequiresUnlock : SessionState → Bool
  | .locked => true
  | .expired => true
  | _ => false

/-- `session.Config` (the Lean name carries the package qualifier):
idle timeout, feature switch, lock-on-auth-failure switch, and the idle
monitor's check interval.  Durations are integers (seconds). -/
structure SessionConfig where
  sessionIdleTimeout : Int
  enableSessionLock : Bool
  lockOnAuthFailure : Bool
  checkInterval : Int
deriving DecidableEq

/-- The mutable fields of `session.Manager`. -/
structure ManagerState where
  config : SessionConfig
  state : SessionState
  lastActivity : Int
  lockedAt : Int
deriving DecidableEq

/-!
## Server state and request path (server package, part of the op-authd daemon)

The engine's process-wide state: cache, session manager, and a count of
backend invocations.  The session lock callback is wired by
`Server.setupSessionLockCallback` to `Cache.Clear`, so the manager's
operations are modelled over the combined state.
-/

structure ServerState where
  cache : Cache
  mgr : ManagerState
  backendCalls : Nat
deriving DecidableEq

/-- A backend read function: `Backend.ReadRefWithFlags` minus I/O. -/
abbrev BackendFn := GoString → List GoString → Except GoString GoString

/-- `Manager.UpdateActivity`: stamp `lastActivity` only when Authenticated. -/
def UpdateActivity (s : ServerState) (now : Int) : ServerState :=
  if s.mgr.state = .authenticated then
    { s with mgr := { s.mgr with lastActivity := now } }
  else s

/-- The lock callback installed by `Server.setupSessionLockCallback`:
clear the whole cache. -/
def executeLockCallback (s : ServerState) : ServerState :=
  { s with cache := (Cache.Clear s.cache).1 }

/-- `Manager.MarkLocked`: transition to Locked (if not already) and fire
the lock callback. -/
def MarkLocked (s : ServerState) (now : Int) : ServerState :=
  if s.mgr.state ≠ .locked then
    executeLockCallback { s with mgr := { s.mgr with state := .locked, lockedAt := now } }
  else s

/-- `Manager.MarkAuthenticated`. -/
def MarkAuthenticated (s : ServerState) (now : Int) : ServerState :=
  { s with mgr := { s.mgr with state := .authenticated, lastActivity := now, lockedAt := 0 } }

/-- `Manager.checkIdleTimeout`: lock (and fire the callback) when an
authenticated session has been idle longer than the timeout. -/
def checkIdleTimeout (s : ServerState) (now : Int) : ServerState :=
  if s.mgr.state ≠ .authenticated then s
  else if s.mgr.config.sessionIdleTimeout > 0 ∧
      now - s.mgr.lastActivity > s.mgr.config.sessionIdleTimeout then
    executeLockCallback { s with mgr := { s.mgr with state := .locked, lockedAt := now } }
  else s

/-- `Manager.ValidateSession`: success iff the session ends up usable.
Locked/Expired attempt an unlock; Unknown runs the initial classification,
which on failure marks the session Locked without firing the lock
callback. -/
def ValidateSession (s : ServerState) (now : Int) (unlockOk : Bool) : Bool × ServerState :=
  if s.mgr.state.IsActive then (true, s)
  else if s.mgr.state.RequiresUnlock then
    if unlockOk then (true, MarkAuthenticated s now) else (false, s)
  else
    if unlockOk then (true, MarkAuthenticated s now)
    else (false, { s with mgr := { s.mgr with state := .locked, lockedAt := now } })

/-- `SessionAwareBackend.ReadRefWithFlags`: validate the session, read via
the wrapped backend, stamp activity on success. -/
def sessionAwareRead (backend : BackendFn) (s : ServerState) (now : Int) (unlockOk : Bool)
    (ref : GoString) (flags : List GoString) : Except GoString GoString × ServerState :=
  match ValidateSession s now unlockOk with
  | (false, s1) => (.error (gs "session validation failed"), s1)
  | (true, s1) =>
    let s2 := { s1 with backendCalls := s1.backendCalls + 1 }
    match backend ref flags with
    | .error e => (.error e, s2)
    | .ok v => (.ok v, UpdateActivity s2 now)

/-- `protocol.ReadResponse`. -/
structure ReadResponse where
  ref : GoString
  value : GoString
  fromCache : Bool
  expiresIn : Int
  resolvedAt : Int
deriving DecidableEq

/-- `security.PeerInfo` (fields used by the policy path). -/
structure PeerInfo where
  pid : Int
  path : GoString
deriving DecidableEq

/-- `Server.validateAccess`. -/
def validateAccess (pol : Policy) (pi : PeerInfo) (ref : GoString) : Bool :=
  Allowed pol ⟨pi.pid, pi.path⟩ ref

/-- The cache / single-flight body of `Server.readOneWithFlags`: cache
check, miss counters, the single-flight thunk with its double-checked
cache read, backend call, cache store, and the deferred in-flight
decrement. -/
def readOneCore (backend : BackendFn) (s : ServerState) (now : Int) (unlockOk : Bool)
    (ref : GoString) (flags : List GoString) : Except GoString ReadResponse × ServerState :=
  let key := cacheKey ref flags
  match Cache.Get s.cache key now with
  | some (v, exp, cached) =>
    (.ok ⟨ref, v, true, exp - now, cached⟩, { s with cache := Cache.IncHit s.cache })
  | none =>
    let s1 := { s with cache := Cache.IncInFlight (Cache.IncMiss s.cache) }
    let out :=
      match Cache.Get s1.cache key now with
      | some (v, exp, cached) =>
        (Except.ok (⟨ref, v, true, exp - now, cached⟩ : ReadResponse),
         { s1 with cache := Cache.IncHit s1.cache })
      | none =>
        match sessionAwareRead backend s1 now unlockOk ref flags with
        | (.error e, s2) => (.error e, s2)
        | (.ok v, s2) =>
          (Except.ok (⟨ref, v, false, Cache.TTL s2.cache, now⟩ : ReadResponse),
           { s2 with cache := Cache.Set s2.cache key v now })
    (out.1, { out.2 with cache := Cache.DecInFlight out.2.cache })

/-- `Server.readOneWithFlags`: the policy gate runs only when peer
information is present; without it the request proceeds unchecked. -/
def readOneWithFlags (backend : BackendFn) (peer : Option PeerInfo) (pol : Policy)
    (s : ServerState) (now : Int) (unlockOk : Bool)
    (ref : GoString) (flags : List GoString) : Except GoString ReadResponse × ServerState :=
  match peer with
  | some pi =>
    if validateAccess pol pi ref = false then (.error (gs "access denied by policy"), s)
    else readOneCore backend s now unlockOk ref flags
  | none => readOneCore backend s now unlockOk ref flags

/-- HTTP response bodies produced by the read endpoint. -/
inductive Body
  | text (s : GoString)
  | json (r : ReadResponse)
deriving DecidableEq

abbrev HTTPResponse := Nat × Body

/-- `Server.handleRead`: trim the reference, reject empties, and map any
read error — policy denials included — to 502 "failed to read secret". -/
def handleRead (backend : BackendFn) (peer : Option PeerInfo) (pol : Policy)
    (s : ServerState) (now : Int) (unlockOk : Bool)
    (reqRef : GoString) (reqFlags : List GoString) : HTTPResponse × ServerState :=
  let ref := goTrimSpace reqRef
  if ref = [] then ((400, .text (gs "ref required")), s)
  else
    match readOneWithFlags backend peer pol s now unlockOk ref reqFlags with
    | (.error _, s1) => ((502, .text (gs "failed to read secret")), s1)
    | (.ok rr, s1) => ((200, .json rr), s1)

/-- `Server.auth`: token check with `subtle.ConstantTimeCompare`, which
succeeds exactly on byte equality; empty or mismatched tokens answer
401 "unauthorized" and stop processing. -/
def auth (storedToken presented : GoString) : Option HTTPResponse :=
  if presented = [] ∨ ¬ presented = storedToken then some (401, .text (gs "unauthorized"))
  else none

/-- The read endpoint behind the auth middleware.  The session
configuration (including `lock_on_auth_failure`) sits in the state and is
never consulted here, as in the source. -/
def serveRead (backend : BackendFn) (storedToken presented : GoString)
    (peer : Option PeerInfo) (pol : Policy) (s : ServerState) (now : Int) (unlockOk : Bool)
    (reqRef : GoString) (reqFlags : List GoString) : HTTPResponse × ServerState :=
  match auth storedToken presented with
  | some resp => (resp, s)
  | none => handleRead backend peer pol s now unlockOk reqRef reqFlags

/-!
## External-command backend validation (internal/backend/opcli.go)

`OpCLI.ReadRefWithFlags` validates the reference and flags before building
the argv and spawning the `op` subprocess.  The `.ok args` result marks
the (unique) point at which the subprocess is spawned; each `.error`
constructor corresponds to one of the function's validation errors.
-/

inductive OpCLIError
  | emptyRef
  | refDashPrefix
  | refBadScheme
  | flagNoDash
  | flagUnsafe
deriving DecidableEq

/-- The characters `;&|`$()` rejected inside flags. -/
def unsafeFlagChars : GoString := gs ";&|`$()"

/-- The flag-validation loop: empty flags are skipped. -/
def checkFlags : List GoString → Option OpCLIError
  | [] => none
  | f :: fs =>
    if f = [] then checkFlags fs
    else if goHasPrefix f (gs "-") = false then some .flagNoDash
    else if goContainsAny f unsafeFlagChars then some .flagUnsafe
    else checkFlags fs

namespace OpCLI

/-- `OpCLI.ReadRefWithFlags` up to the subprocess spawn: validation order
as in the source (empty, dash prefix, scheme, flags), then the argv
`[global flags, "read", "--no-color", ref]` with empty flags dropped. -/
def ReadRefWithFlags (ref : GoString) (flags : List GoString) :
    Except OpCLIError (List GoString) :=
  if goTrimSpace ref = [] then .error .emptyRef
  else if goHasPrefix ref (gs "-") then .error .refDashPrefix
  else if goHasPrefix ref (gs "op://") = false then .error .refBadScheme
  else
    match checkFlags flags with
    | some e => .error e
    | none => .ok ((flags.filter fun f => f ≠ []) ++ [gs "read", gs "--no-color", ref])

end OpCLI

/-!
## Single-flight composition (Server.readOneWithFlags and
golang.org/x/sync/singleflight)

An interleaving model of N concurrent requests for one fingerprint:
each request performs the handler's cache check, then enters
`singleflight.Do`; the flight's leader re-checks the cache inside the
thunk, calls the backend (at most one flight runs per key at a time, the
key is forgotten when the flight completes), stores a successful value,
and the result is delivered to the leader and every joined waiter.
`backend i` is the result of the i-th backend invocation.  Cache entries
do not expire within the modelled episode.
-/

namespace SF

/-- A backend outcome: value or error (both numbered for concreteness). -/
abbrev R := Except Nat Nat

instance : DecidableEq R := fun a b =>
  match a, b with
  | .ok x, .ok y =>
    if h : x = y then isTrue (by rw [h]) else isFalse (fun hc => h (Except.ok.inj hc))
  | .error x, .error y =>
    if h : x = y then isTrue (by rw [h]) else isFalse (fun hc => h (Except.error.inj hc))
  | .ok _, .error _ => isFalse (fun hc => Except.noConfusion hc)
  | .error _, .ok _ => isFalse (fun hc => Except.noConfusion hc)

inductive ReqState
  | start
  | entered
  | leaderRecheck
  | leaderCall
  | leaderFinish
  | waiting
  | done (r : R)
deriving DecidableEq

inductive FlightState
  | idle
  | running (leader : Nat) (waiters : List Nat) (pending : Option R)
deriving DecidableEq

structure SFState where
  cache : Option Nat
  flight : FlightState
  invocations : Nat
  reqs : List ReqState
deriving DecidableEq

/-- The schedulable atomic actions of one request. -/
inductive Action
  | cacheGet (i : Nat)
  | enter (i : Nat)
  | recheck (i : Nat)
  | invoke (i : Nat)
  | finish (i : Nat)
deriving DecidableEq

/-- Deliver the flight's result to every waiter. -/
def distribute (reqs : List ReqState) (ws : List Nat) (r : R) : List ReqState :=
  ws.foldl (fun acc j => acc.set j (.done r)) reqs

/-- One atomic step of the interleaved system; `none` when the action is
not enabled. -/
def applyStep (backend : Nat → R) (s : SFState) (a : Action) : Option SFState :=
  match a with
  | .cacheGet i =>
    match s.reqs[i]? with
    | some .start =>
      match s.cache with
      | some v => some { s with reqs := s.reqs.set i (.done (.ok v)) }
      | none => some { s with reqs := s.reqs.set i .entered }
    | _ => none
  | .enter i =>
    match s.reqs[i]? with
    | some .entered =>
      match s.flight with
      | .idle => some { s with flight := .running i [] none, reqs := s.reqs.set i .leaderRecheck }
      | .running l ws p =>
        some { s with flight := .running l (i :: ws) p, reqs := s.reqs.set i .waiting }
    | _ => none
  | .recheck i =>
    match s.reqs[i]?, s.flight with
    | some .leaderRecheck, .running l ws none =>
      if l = i then
        match s.cache with
        | some v =>
          some { s with flight := .running l ws (some (.ok v)), reqs := s.reqs.set i .leaderFinish }
        | none => some { s with reqs := s.reqs.set i .leaderCall }
      else none
    | _, _ => none
  | .invoke i =>
    match s.reqs[i]?, s.flight with
    | some .leaderCall, .running l ws none =>
      if l = i then
        some { s with invocations := s.invocations + 1,
                      flight := .running l ws (some (backend s.invocations)),
                      reqs := s.reqs.set i .leaderFinish }
      else none
    | _, _ => none
  | .finish i =>
    match s.reqs[i]?, s.flight with
    | some .leaderFinish, .running l ws (some r) =>
      if l = i then
        some { s with
          cache := match r with | .ok v => some v | .error _ => s.cache,
          flight := .idle,
          reqs := distribute (s.reqs.set i (.done r)) ws r }
      else none
    | _, _ => none

/-- N fresh requests, empty cache, no flight. -/
def initSF (n : Nat) : SFState := ⟨none, .idle, 0, List.replicate n .start⟩

/-- States reachable from `init` under some interleaving. -/
inductive ReachSF (backend : Nat → R) (init : SFState) : SFState → Prop
  | refl : ReachSF backend init init
  | step {s s' : SFState} {a : Action} :
      ReachSF backend init s → applyStep backend s a = some s' → ReachSF backend init s'

/-- Run an explicit schedule. -/
def runActions (backend : Nat → R) (s : SFState) : List Action → Option SFState
  | [] => some s
  | a :: rest =>
    match applyStep backend s a with
    | none => none
    | some s' => runActions backend s' rest

/-- The invariant of the success case (`backend 0 = .ok v`). -/
def Inv (v : Nat) (s : SFState) : Prop :=
  s.invocations ≤ 1 ∧
  (∀ w : Nat, s.cache = some w → w = v ∧ s.invocations = 1) ∧
  (∀ (l : Nat) (ws : List Nat) (r : R),
    s.flight = .running l ws (some r) → r = .ok v ∧ s.invocations = 1) ∧
  (s.invocations = 1 →
    (∀ (l : Nat) (ws : List Nat), s.flight = .running l ws none → s.cache = some v) ∧
    (s.flight = .idle → s.cache = some v)) ∧
  (∀ i : Nat, s.reqs[i]? = some ReqState.leaderCall →
    s.invocations = 0 ∧ s.cache = none ∧ ∃ ws : List Nat, s.flight = .running i ws none) ∧
  (∀ (i : Nat) (r : R), s.reqs[i]? = some (ReqState.done r) → r = .ok v ∧ s.invocations = 1)

end SF

/-!
## Daemon state machine

The daemon's observable state evolves through the request handlers and the
two background loops.  `Step` collects every state-mutating operation of
the server: a served read (any tokens, peer, policy, backend outcome),
the idle-timeout check, a forced lock, the unlock endpoint's session
validation, and the periodic cleanup sweep.  The background loops' pacing
(`Config.CheckInterval`, the cleanup interval) is real time outside the
model: the corresponding steps may fire at any instant, which only widens
the set of reachable states.
-/

/-- The state a freshly started daemon begins in: empty cache with the
configured TTL, session Unknown, `lastActivity` set at construction. -/
def initState (cfg : SessionConfig) (ttl : Int) (now0 : Int) : ServerState :=
  ⟨⟨[], ttl, 0, 0, 0⟩, ⟨cfg, .unknown, now0, 0⟩, 0⟩

/-- One observable state transition of the daemon. -/
inductive Step : ServerState → ServerState → Prop
  | serve (backend : BackendFn) (stored presented : GoString) (peer : Option PeerInfo)
      (pol : Policy) (s : ServerState) (now : Int) (u : Bool)
      (reqRef : GoString) (reqFlags : List GoString) :
      Step s (serveRead backend stored presented peer pol s now u reqRef reqFlags).2
  | idle (s : ServerState) (now : Int) : Step s (checkIdleTimeout s now)
  | markLocked (s : ServerState) (now : Int) : Step s (MarkLocked s now)
  | sessionUnlock (s : ServerState) (now : Int) (u : Bool) :
      Step s (ValidateSession s now u).2
  | cleanup (s : ServerState) (now : Int) :
      Step s { s with cache := (Cache.CleanupExpired s.cache now).1 }

/-- States the daemon can reach from a fresh start. -/
inductive Reachable (cfg : SessionConfig) (ttl : Int) (now0 : Int) : ServerState → Prop
  | init : Reachable cfg ttl now0 (initState cfg ttl now0)
  | step {s s' : ServerState} : Reachable cfg ttl now0 s → Step s s' →
      Reachable cfg ttl now0 s'

/-- The inductive invariant behind lock-clears-cache: whenever the session
is not Authenticated, the cache holds no entries (entries are only written
after a successful session validation, and the lock paths clear). -/
def InactiveCacheEmpty (s : ServerState) : Prop :=
  s.mgr.state ≠ .authenticated → s.cache.data = []

/-!
## Concrete fixtures used by witnesses and counterexamples
-/

/-- A session configuration with locking enabled. -/
def cfgT : SessionConfig := ⟨3600, true, true, 60⟩

/-- An authenticated manager with `lastActivity = 5`. -/
def mgrAuth : ManagerState := ⟨cfgT, .authenticated, 5, 0⟩

/-- A locked manager. -/
def mgrLocked : ManagerState := ⟨cfgT, .locked, 5, 2⟩

/-- An empty cache with TTL 60. -/
def cacheEmpty : Cache := ⟨[], 60, 0, 0, 0⟩

/-- Empty cache, authenticated session, no backend calls yet. -/
def s0 : ServerState := ⟨cacheEmpty, mgrAuth, 0⟩

/-- Like `s0` but with a locked session. -/
def sLocked : ServerState := ⟨cacheEmpty, mgrLocked, 0⟩

/-- A cache holding `op://a ↦ "v"` with expiry 20, cached at 3. -/
def cacheHit : Cache := ⟨[(gs "op://a", ⟨gs "v", 20, 3⟩)], 60, 0, 0, 0⟩

/-- Server state whose cache already holds `op://a`. -/
def sHit : ServerState := ⟨cacheHit, mgrAuth, 0⟩

/-- A cache whose single entry expires exactly at 10. -/
def cAt : Cache := ⟨[(gs "k", ⟨gs "v", 10, 5⟩)], 5, 0, 0, 0⟩

/-- A backend that always answers `"v"`. -/
def beOk : BackendFn := fun _ _ => .ok (gs "v")

/-- A backend that always fails. -/
def beErr : BackendFn := fun _ _ => .error (gs "boom")

/-- The deny-everything policy: no rules, `default_deny = true`. -/
def polDenyAll : Policy := ⟨[], true⟩

/-- A single-flight backend whose every invocation answers 7. -/
def sfBackendOk : Nat → SF.R := fun _ => .ok 7

/-- A single-flight backend whose i-th invocation fails with error i. -/
def sfBackendErr : Nat → SF.R := fun n => .error n

/-- A schedule in which request 1 arrives (performs its cache check)
while request 0's backend call is pending, and joins the flight. -/
def sfTraceOk : List SF.Action :=
  [.cacheGet 0, .enter 0, .recheck 0, .invoke 0, .cacheGet 1, .enter 1, .finish 0]

/-- A schedule in which request 1 arrives (performs its cache check)
while request 0's backend call is pending, but reaches `Do` only after
request 0's flight completed with an error. -/
def sfTraceErr : List SF.Action :=
  [.cacheGet 0, .enter 0, .recheck 0, .invoke 0, .cacheGet 1, .finish 0,
   .enter 1, .recheck 1, .invoke 1, .finish 1]

/-- The final state of `sfTraceOk`. -/
def sfFinalOk : SF.SFState := ⟨some 7, .idle, 1, [.done (.ok 7), .done (.ok 7)]⟩

/-- The final state of `sfTraceErr`. -/
def sfFinalErr : SF.SFState := ⟨none, .idle, 2, [.done (.error 0), .done (.error 1)]⟩

/-!
## Theorems
-/

/-- First-occurrence cancellation: appending up to the first occurrence of an
element absent from both prefixes is injective. -/
theorem append_cons_cancel {α : Type} (c : α) :
    ∀ (a₁ a₂ t₁ t₂ : List α), c ∉ a₁ → c ∉ a₂ →
      a₁ ++ c :: t₁ = a₂ ++ c :: t₂ → a₁ = a₂ ∧ t₁ = t₂ := by
  intro a₁
  induction a₁ with
  | nil =>
    intro a₂ t₁ t₂ _ h₂ heq
    cases a₂ with
    | nil => simpa using heq
    | cons y ys =>
      simp only [List.nil_append, List.cons_append, List.cons.injEq] at heq
      exact absurd (heq.1 ▸ List.mem_cons_self y ys) (heq.1 ▸ h₂)
  | cons x xs ih =>
    intro a₂ t₁ t₂ h₁ h₂ heq
    cases a₂ with
    | nil =>
      simp only [List.cons_append, List.nil_append, List.cons.injEq] at heq
      exact absurd (heq.1 ▸ List.mem_cons_self x xs) (fun hm => h₁ (heq.1 ▸ hm))
    | cons y ys =>
      simp only [List.cons_append, List.cons.injEq] at heq
      have hx : c ∉ xs := fun hm => h₁ (List.mem_cons_of_mem _ hm)
      have hy : c ∉ ys := fun hm => h₂ (List.mem_cons_of_mem _ hm)
      obtain ⟨he, ht⟩ := ih ys t₁ t₂ hx hy heq.2
      exact ⟨by rw [heq.1, he], ht⟩

theorem intercalate_cons_cons (sep : GoString) (a b : GoString) (l : List GoString) :
    List.intercalate sep (a :: b :: l) = a ++ sep ++ List.intercalate sep (b :: l) := by
  simp [List.intercalate, List.flatten, List.intersperse]

theorem intercalate_singleton (sep a : GoString) :
    List.intercalate sep [a] = a := by
  simp [List.intercalate, List.flatten, List.intersperse]

/-- Joining with `","` is injective on non-empty lists of comma-free strings. -/
theorem goJoin_comma_inj :
    ∀ (xs ys : List GoString), (∀ s ∈ xs, ',' ∉ s) → (∀ s ∈ ys, ',' ∉ s) →
      xs ≠ [] → ys ≠ [] → goJoin (gs ",") xs = goJoin (gs ",") ys → xs = ys := by
  intro xs
  induction xs with
  | nil => intro ys _ _ hne; exact absurd rfl hne
  | cons x xs ih =>
    intro ys hx hy _ hyne heq
    cases ys with
    | nil => exact absurd rfl hyne
    | cons y ys =>
      cases xs with
      | nil =>
        cases ys with
        | nil =>
          simp only [goJoin, intercalate_singleton] at heq
          rw [heq]
        | cons y₂ ys =>
          simp only [goJoin, intercalate_singleton, intercalate_cons_cons] at heq
          have : ',' ∈ x := by
            rw [heq, show (gs ",") = [','] from rfl]
            simp
          exact absurd this (hx x (List.mem_cons_self _ _))
      | cons x₂ xs =>
        cases ys with
        | nil =>
          simp only [goJoin, intercalate_singleton, intercalate_cons_cons] at heq
          have : ',' ∈ y := by
            rw [← heq, show (gs ",") = [','] from rfl]
            simp
          exact absurd this (hy y (List.mem_cons_self _ _))
        | cons y₂ ys =>
          simp only [goJoin, intercalate_cons_cons] at heq
          rw [show (gs ",") = [','] from rfl] at heq
          simp only [List.append_assoc, List.singleton_append] at heq
          obtain ⟨hxy, ht⟩ := append_cons_cancel ','
            x y _ _ (hx x (List.mem_cons_self _ _)) (hy y (List.mem_cons_self _ _)) heq
          have hx2 : ∀ s ∈ x₂ :: xs, ',' ∉ s := fun s hs => hx s (List.mem_cons_of_mem _ hs)
          have hy2 : ∀ s ∈ y₂ :: ys, ',' ∉ s := fun s hs => hy s (List.mem_cons_of_mem _ hs)
          have := ih (y₂ :: ys) hx2 hy2 (by simp) (by simp) ht
          rw [hxy, this]

/-- C2 (amended): with the delimiter characters excluded from the inputs
(`'|'` not in either reference, `','` in no flag), two requests share the
fingerprint computed by `Server.readOneWithFlags` iff their
`(reference, flags)` pairs coincide. -/
theorem cacheKey_eq_iff (r₁ r₂ : GoString) (f₁ f₂ : List GoString)
    (h₁ : '|' ∉ r₁) (h₂ : '|' ∉ r₂)
    (hf₁ : ∀ s ∈ f₁, ',' ∉ s) (hf₂ : ∀ s ∈ f₂, ',' ∉ s) :
    cacheKey r₁ f₁ = cacheKey r₂ f₂ ↔ (r₁ = r₂ ∧ f₁ = f₂) := by
  constructor
  · intro heq
    unfold cacheKey at heq
    have hdelim : gs "|flags:" = '|' :: gs "flags:" := rfl
    by_cases e₁ : 0 < f₁.length <;> by_cases e₂ : 0 < f₂.length
    · rw [if_pos e₁, if_pos e₂, hdelim] at heq
      simp only [List.append_assoc, List.cons_append] at heq
      obtain ⟨hr, ht⟩ := append_cons_cancel '|' r₁ r₂ _ _ h₁ h₂ heq
      have hjoin : goJoin (gs ",") f₁ = goJoin (gs ",") f₂ :=
        List.append_cancel_left ht
      refine ⟨hr, goJoin_comma_inj f₁ f₂ hf₁ hf₂ ?_ ?_ hjoin⟩
      · exact List.ne_nil_of_length_pos e₁
      · exact List.ne_nil_of_length_pos e₂
    · rw [if_pos e₁, if_neg e₂, hdelim] at heq
      exfalso
      apply h₂
      rw [← heq]
      simp
    · rw [if_neg e₁, if_pos e₂, hdelim] at heq
      exfalso
      apply h₁
      rw [heq]
      simp
    · rw [if_neg e₁, if_neg e₂] at heq
      have hf1 : f₁ = [] := by
        cases f₁ with
        | nil => rfl
        | cons a l => exact absurd (by simp) e₁
      have hf2 : f₂ = [] := by
        cases f₂ with
        | nil => rfl
        | cons a l => exact absurd (by simp) e₂
      exact ⟨heq, hf1.trans hf2.symm⟩
  · rintro ⟨rfl, rfl⟩
    rfl

/-- C2 witness: the amended fingerprint-identity theorem applied at a
concrete delimiter-free input. -/
theorem cacheKey_eq_iff_witness :
    cacheKey (gs "op://v/i/f") [gs "-x"] = cacheKey (gs "op://v/i/f") [gs "-x"] ↔
      (gs "op://v/i/f" = gs "op://v/i/f" ∧ [gs "-x"] = [gs "-x"]) :=
  cacheKey_eq_iff (gs "op://v/i/f") (gs "op://v/i/f") [gs "-x"] [gs "-x"]
    (by decide) (by decide) (by decide) (by decide)

/-- C2 counterexample: the flag lists `["-x,-y"]` and `["-x", "-y"]` differ,
yet both requests receive the same fingerprint, so fingerprint identity does
not coincide with `(reference, flags)` identity as the claim states. -/
theorem cacheKey_collision :
    cacheKey (gs "op://v/i/f") [gs "-x,-y"] = cacheKey (gs "op://v/i/f") [gs "-x", gs "-y"] ∧
      [gs "-x,-y"] ≠ [gs "-x", gs "-y"] := by
  constructor
  · rfl
  · decide


theorem goHasSuffix_star_elim {p : GoString} (h : goHasSuffix p (gs "*") = true) :
    ∃ t, p = t ++ ['*'] := by
  have hs : (gs "*").isSuffixOf p := h
  rw [List.isSuffixOf_iff_suffix] at hs
  obtain ⟨t, ht⟩ := hs
  exact ⟨t, ht.symm⟩

theorem star_prefix_self {p : GoString} (h : goHasSuffix p (gs "*") = true) :
    goHasPrefix p (goTrimSuffix p (gs "*")) = true := by
  obtain ⟨t, rfl⟩ := goHasSuffix_star_elim h
  unfold goTrimSuffix
  rw [if_pos h]
  have hlen : (t ++ ['*']).length - (gs "*").length = t.length := by
    simp [gs]
  rw [hlen, List.take_left]
  unfold goHasPrefix
  rw [List.isPrefixOf_iff_prefix]
  exact List.prefix_append t ['*']

/-- The code's pattern loop agrees with the claim's disjunctive pattern
semantics. -/
theorem matchRef_eq_any (allowed : List GoString) (ref : GoString) :
    matchRef allowed ref = allowed.any (patternMatchesSpec ref) := by
  induction allowed with
  | nil => rfl
  | cons a rest ih =>
    unfold matchRef
    by_cases hstar : a = gs "*"
    · simp [hstar, patternMatchesSpec]
    · by_cases hsuf : goHasSuffix a (gs "*") = true
      · by_cases hpre : goHasPrefix ref (goTrimSuffix a (gs "*")) = true
        · simp [hstar, hsuf, hpre, patternMatchesSpec]
        · have hne : a ≠ ref := by
            intro he
            exact hpre (he ▸ star_prefix_self hsuf)
          simp only [if_neg hstar, hsuf, if_true, if_neg hpre, ih, List.any_cons]
          have : patternMatchesSpec ref a = false := by
            simp [patternMatchesSpec, hstar, hpre, hne]
          rw [this]
          simp
      · have hnsuffix : goHasSuffix a (gs "*") = false := by
          simpa using hsuf
        by_cases heq : ref = a
        · simp [hstar, hnsuffix, heq, patternMatchesSpec]
        · have hne : a ≠ ref := fun h => heq h.symm
          simp only [if_neg hstar, hnsuffix, Bool.false_eq_true, if_false, if_neg heq,
            ih, List.any_cons]
          have : patternMatchesSpec ref a = false := by
            simp [patternMatchesSpec, hstar, hnsuffix, hne]
          rw [this]
          simp

/-- The code's rule-scanning loop agrees with the claim's any-rule form. -/
theorem allowedLoop_eq_any (dd : Bool) (subj : Subject) (ref : GoString) :
    ∀ rs : List Rule,
      allowedLoop dd subj ref rs = (rs.any (fun r => ruleMatchesSpec r subj ref) || !dd) := by
  intro rs
  induction rs with
  | nil => simp [allowedLoop]
  | cons r rest ih =>
    unfold allowedLoop
    by_cases h1 : r.pid ≠ 0 ∧ r.pid ≠ subj.pid
    · have : ruleMatchesSpec r subj ref = false := by
        simp [ruleMatchesSpec, h1.1, h1.2]
      simp [h1, ih, this]
    · by_cases h2 : r.path ≠ [] ∧ samePath r.path subj.path = false
      · have : ruleMatchesSpec r subj ref = false := by
          simp [ruleMatchesSpec, h2.1, h2.2]
        simp [h1, h2, ih, this]
      · by_cases h3 : r.pathSha256 ≠ [] ∧ r.pathSha256 ≠ sha256Hex subj.path
        · have : ruleMatchesSpec r subj ref = false := by
            simp [ruleMatchesSpec, h3.1, h3.2]
          simp [h1, h2, h3, ih, this]
        · by_cases h4 : matchRef r.refs ref = true
          · have : ruleMatchesSpec r subj ref = true := by
              rw [not_and_or] at h1 h2 h3
              simp only [ruleMatchesSpec, Bool.and_eq_true, Bool.or_eq_true,
                decide_eq_true_eq, ← matchRef_eq_any]
              push_neg at h1 h2 h3
              refine ⟨⟨⟨?_, ?_⟩, ?_⟩, h4⟩
              · rcases h1 with h | h
                · left; simpa using h
                · right; simpa using h
              · rcases h2 with h | h
                · left; simpa using h
                · right; simpa using h
              · rcases h3 with h | h
                · left; simpa using h
                · right; simpa using h
            simp [h1, h2, h3, h4, this]
          · have : ruleMatchesSpec r subj ref = false := by
              simp only [ruleMatchesSpec, ← matchRef_eq_any]
              have hm : matchRef r.refs ref = false := by simpa using h4
              simp [hm]
            simp [h1, h2, h3, h4, ih, this]

/-- C3: the policy evaluator `policy.Allowed` coincides, for every policy,
subject and reference, with the claim's specification: allow outright on an
empty allow-list with `default_deny=false`; otherwise a rule matches iff
every present criterion (canonical-path equality, path-hash equality,
numeric pid equality) matches and some pattern matches the reference, a
matching rule yields allow, and with no matching rule the result is deny
iff `default_deny=true`. -/
theorem Allowed_eq_allowedSpec (pol : Policy) (subj : Subject) (ref : GoString) :
    Allowed pol subj ref = allowedSpec pol subj ref := by
  unfold Allowed allowedSpec
  by_cases he : pol.allow = [] ∧ pol.defaultDeny = false
  · rw [if_pos he, if_pos ?_]
    exact ⟨by simp [he.1], he.2⟩
  · have he' : ¬(pol.allow.length = 0 ∧ pol.defaultDeny = false) := by
      intro hc
      exact he ⟨List.length_eq_zero.mp hc.1, hc.2⟩
    rw [if_neg he', if_neg he, allowedLoop_eq_any]
    by_cases ha : pol.allow.any (fun r => ruleMatchesSpec r subj ref) = true
    · simp [ha]
    · simp only [Bool.not_eq_true] at ha
      simp [ha]


/-- Counter increments do not affect cache reads. -/
theorem cache_get_counters (c : Cache) (k : GoString) (n : Int) :
    Cache.Get (Cache.IncInFlight (Cache.IncMiss c)) k n = Cache.Get c k n := rfl

/-- Counter increments do not affect the TTL. -/
theorem cache_counters_ttl (c : Cache) :
    (Cache.IncInFlight (Cache.IncMiss c)).ttl = c.ttl := rfl

/-- The in-flight decrement does not affect the stored entries. -/
theorem decInFlight_data (c : Cache) : (Cache.DecInFlight c).data = c.data := by
  unfold Cache.DecInFlight
  split <;> rfl

/-- C4 counterexample: on a connection whose peer probe failed (`none`
identity) under the deny-everything policy, the read proceeds to the
backend and succeeds, although the policy denies the empty subject
`(pid = 0, path = "")` — so the request is not evaluated against the
policy as an empty identity, contradicting the claim. -/
theorem readOne_probeFail_bypass_cex :
    (readOneWithFlags beOk none polDenyAll s0 10 true (gs "op://x") []).1 =
      .ok ⟨gs "op://x", gs "v", false, 60, 10⟩ ∧
    ((readOneWithFlags beOk none polDenyAll s0 10 true (gs "op://x") []).2).backendCalls = 1 ∧
    Allowed polDenyAll ⟨0, []⟩ (gs "op://x") = false :=
  ⟨rfl, rfl, rfl⟩

/-- C4 (amended): when the peer-identity probe fails, `readOneWithFlags`
skips the policy gate entirely — its outcome is independent of the policy —
even though the deny-everything policy would deny any subject, the empty
one included. -/
theorem readOne_no_peer_policy_independent (backend : BackendFn) (pol pol' : Policy)
    (s : ServerState) (now : Int) (u : Bool) (ref : GoString) (flags : List GoString)
    (pid : Int) (path : GoString) :
    readOneWithFlags backend none pol s now u ref flags =
      readOneWithFlags backend none pol' s now u ref flags ∧
    Allowed ⟨[], true⟩ ⟨pid, path⟩ ref = false :=
  ⟨rfl, by simp [Allowed, allowedLoop]⟩

/-- C5 counterexample: a policy-denied read is answered with
502 "failed to read secret", not 403 "access denied by policy". -/
theorem handleRead_policyDeny_cex :
    handleRead beOk (some ⟨1, gs "/bin/bad"⟩) polDenyAll s0 10 true (gs "op://x") [] =
      ((502, .text (gs "failed to read secret")), s0) ∧
    ((502, Body.text (gs "failed to read secret")) : HTTPResponse) ≠
      ((403, Body.text (gs "access denied by policy")) : HTTPResponse) :=
  ⟨rfl, by decide⟩

/-- C5 (amended): whenever the policy denies the trimmed reference for the
request's peer, `handleRead` answers 502 "failed to read secret" (the
denial error is folded into the generic read-error path) and leaves the
whole server state — cache entries, cache counters, session, backend-call
count — unchanged. -/
theorem handleRead_policyDeny (backend : BackendFn) (pi : PeerInfo) (pol : Policy)
    (s : ServerState) (now : Int) (u : Bool) (reqRef : GoString) (flags : List GoString)
    (hne : goTrimSpace reqRef ≠ [])
    (hden : validateAccess pol pi (goTrimSpace reqRef) = false) :
    handleRead backend (some pi) pol s now u reqRef flags =
      ((502, .text (gs "failed to read secret")), s) := by
  simp [handleRead, readOneWithFlags, hne, hden]

/-- C5 witness: the denial theorem applied at a concrete denied request. -/
theorem handleRead_policyDeny_witness :
    goTrimSpace (gs "op://x") ≠ [] ∧
    validateAccess polDenyAll ⟨1, gs "/bin/bad"⟩ (goTrimSpace (gs "op://x")) = false ∧
    handleRead beOk (some ⟨1, gs "/bin/bad"⟩) polDenyAll s0 10 true (gs "op://x") [] =
      ((502, .text (gs "failed to read secret")), s0) :=
  ⟨by decide, by decide,
   handleRead_policyDeny beOk ⟨1, gs "/bin/bad"⟩ polDenyAll s0 10 true (gs "op://x") []
     (by decide) (by decide)⟩

/-- C8 counterexample: a request with a wrong bearer token, while
`lock_on_auth_failure` is set and the session is Authenticated, is answered
401 "unauthorized" with the entire state unchanged — in particular the
session is not transitioned to Locked as the claim states. -/
theorem serveRead_authFail_cex :
    serveRead beOk (gs "tok") (gs "bad") none polDenyAll s0 10 true (gs "op://x") [] =
      ((401, .text (gs "unauthorized")), s0) ∧
    s0.mgr.config.lockOnAuthFailure = true ∧
    s0.mgr.state = .authenticated ∧
    ((serveRead beOk (gs "tok") (gs "bad") none polDenyAll s0 10 true (gs "op://x") []).2).mgr.state ≠
      SessionState.locked :=
  ⟨rfl, rfl, rfl, by decide⟩

/-- C8 (amended): a missing or mismatched bearer token is answered
401 with body "unauthorized" and no further processing: the state — cache,
session (whatever `lock_on_auth_failure` says), backend count — is
untouched.  (Token comparison is byte equality, which is what
`subtle.ConstantTimeCompare` decides; its timing behaviour is outside the
model.) -/
theorem serveRead_auth_failure (backend : BackendFn) (stored presented : GoString)
    (peer : Option PeerInfo) (pol : Policy) (s : ServerState) (now : Int) (u : Bool)
    (reqRef : GoString) (flags : List GoString)
    (h : presented = [] ∨ ¬ presented = stored) :
    serveRead backend stored presented peer pol s now u reqRef flags =
      ((401, .text (gs "unauthorized")), s) := by
  unfold serveRead auth
  rw [if_pos h]

/-- C8 witness: the auth-failure theorem applied at a concrete mismatched
token. -/
theorem serveRead_auth_failure_witness :
    ((gs "bad") = ([] : GoString) ∨ ¬ (gs "bad") = (gs "tok")) ∧
    serveRead beOk (gs "tok") (gs "bad") none polDenyAll s0 10 true (gs "op://x") [] =
      ((401, .text (gs "unauthorized")), s0) :=
  ⟨Or.inr (by decide),
   serveRead_auth_failure beOk (gs "tok") (gs "bad") none polDenyAll s0 10 true (gs "op://x") []
     (Or.inr (by decide))⟩

/-- C10 counterexample: the entry expires at 10, yet a read at `now = 10`
(so `now ≥ expires_at`) still returns the stored value: expiry uses the
strict `time.Now().After`, so the claim's boundary is wrong and a reader
can observe an entry with `expires_at ≤ now`. -/
theorem cache_get_boundary_cex :
    Cache.lookup cAt (gs "k") = some ⟨gs "v", 10, 5⟩ ∧
    Cache.Get cAt (gs "k") 10 = some (gs "v", 10, 5) :=
  ⟨rfl, rfl⟩

/-- C10 (amended): for an entry with `expires_at = t`, `Cache.Get` returns
the stored value at every read with `now ≤ t` and misses at every read
with `now > t`; `Cache.Set` stamps `expires_at = now + ttl`; on the read
path a cache hit is reported with `from_cache = true`, and a miss (with a
usable session and a working backend) performs exactly one backend
fetch. -/
theorem cache_ttl_boundary (c : Cache) (key : GoString) (now : Int) (e : CacheEntry)
    (h : Cache.lookup c key = some e) :
    (now ≤ e.exp → Cache.Get c key now = some (e.v, e.exp, e.cached)) ∧
    (e.exp < now → Cache.Get c key now = none) ∧
    (∀ v : GoString, Cache.lookup (Cache.Set c key v now) key = some ⟨v, now + c.ttl, now⟩) ∧
    (∀ (backend : BackendFn) (s : ServerState) (n : Int) (u : Bool) (ref : GoString)
        (flags : List GoString) (v : GoString) (exp cached : Int),
        Cache.Get s.cache (cacheKey ref flags) n = some (v, exp, cached) →
        (readOneCore backend s n u ref flags).1 = .ok ⟨ref, v, true, exp - n, cached⟩) ∧
    (∀ (backend : BackendFn) (s : ServerState) (n : Int) (u : Bool) (ref : GoString)
        (flags : List GoString) (v : GoString),
        Cache.Get s.cache (cacheKey ref flags) n = none →
        s.mgr.state = .authenticated →
        backend ref flags = .ok v →
        ((readOneCore backend s n u ref flags).2).backendCalls = s.backendCalls + 1 ∧
        (readOneCore backend s n u ref flags).1 = .ok ⟨ref, v, false, s.cache.ttl, n⟩) := by
  refine ⟨?_, ?_, ?_, ?_, ?_⟩
  · intro hle
    have hn : ¬ now > e.exp := by omega
    simp [Cache.Get, h, hn]
  · intro hlt
    have hn : now > e.exp := by omega
    simp [Cache.Get, h, hn]
  · intro v
    simp [Cache.Set, Cache.lookup]
  · intro backend s n u ref flags v exp cached hget
    simp [readOneCore, hget]
  · intro backend s n u ref flags v hget hauth hbk
    have hget2 : Cache.Get (Cache.IncInFlight (Cache.IncMiss s.cache)) (cacheKey ref flags) n =
        none := by rw [cache_get_counters]; exact hget
    simp [readOneCore, hget, hget2, sessionAwareRead, ValidateSession, SessionState.IsActive,
      hauth, hbk, Cache.TTL, UpdateActivity, cache_counters_ttl]

/-- C10 witness: the boundary theorem applied at the concrete entry that
expires at 10, read at 8 (hit) and 11 (miss), plus the concrete hit/miss
read paths. -/
theorem cache_ttl_boundary_witness :
    Cache.Get cAt (gs "k") 8 = some (gs "v", 10, 5) ∧
    Cache.Get cAt (gs "k") 11 = none ∧
    (readOneCore beOk sHit 10 true (gs "op://a") []).1 = .ok ⟨gs "op://a", gs "v", true, 10, 3⟩ ∧
    ((readOneCore beOk s0 10 true (gs "op://x") []).2).backendCalls = 1 :=
  ⟨(cache_ttl_boundary cAt (gs "k") 8 ⟨gs "v", 10, 5⟩ rfl).1 (by decide),
   (cache_ttl_boundary cAt (gs "k") 11 ⟨gs "v", 10, 5⟩ rfl).2.1 (by decide),
   (cache_ttl_boundary cAt (gs "k") 10 ⟨gs "v", 10, 5⟩ rfl).2.2.2.1 beOk sHit 10 true
     (gs "op://a") [] (gs "v") 20 3 (by decide),
   ((cache_ttl_boundary cAt (gs "k") 10 ⟨gs "v", 10, 5⟩ rfl).2.2.2.2 beOk s0 10 true
     (gs "op://x") [] (gs "v") (by decide) rfl rfl).1⟩

/-- C7 counterexample: a read served from the cache succeeds with
`from_cache = true` but leaves `last_activity` at its old value 5 instead
of stamping the read time 10 — cache hits do not update activity. -/
theorem activity_stamp_hit_cex :
    (readOneWithFlags beOk none polDenyAll sHit 10 true (gs "op://a") []).1 =
      .ok ⟨gs "op://a", gs "v", true, 10, 3⟩ ∧
    ((readOneWithFlags beOk none polDenyAll sHit 10 true (gs "op://a") []).2).mgr = mgrAuth ∧
    mgrAuth.lastActivity = 5 ∧ (5 : Int) ≠ 10 :=
  ⟨rfl, rfl, rfl, by decide⟩

/-- C7 (amended): `last_activity` is stamped by successful backend (miss)
reads and only by them: cache hits leave the manager untouched;
`UpdateActivity` writes only in the Authenticated state and is a no-op
otherwise; policy denials and auth failures leave the whole state
untouched; a failed session validation and a backend error (from an
already-authenticated session) leave `last_activity` unchanged. -/
theorem activity_stamp :
    (∀ (backend : BackendFn) (s : ServerState) (now : Int) (u : Bool) (ref : GoString)
        (flags : List GoString) (x : GoString × Int × Int),
        Cache.Get s.cache (cacheKey ref flags) now = some x →
        ((readOneWithFlags backend none polDenyAll s now u ref flags).2).mgr = s.mgr) ∧
    (∀ (backend : BackendFn) (s : ServerState) (now : Int) (u : Bool) (ref : GoString)
        (flags : List GoString) (v : GoString),
        Cache.Get s.cache (cacheKey ref flags) now = none →
        s.mgr.state = .authenticated →
        backend ref flags = .ok v →
        ((readOneCore backend s now u ref flags).2).mgr.lastActivity = now) ∧
    (∀ (s : ServerState) (now : Int),
        s.mgr.state ≠ .authenticated → UpdateActivity s now = s) ∧
    (∀ (s : ServerState) (now : Int),
        s.mgr.state = .authenticated → (UpdateActivity s now).mgr.lastActivity = now) ∧
    (∀ (backend : BackendFn) (pi : PeerInfo) (pol : Policy) (s : ServerState) (now : Int)
        (u : Bool) (ref : GoString) (flags : List GoString),
        validateAccess pol pi ref = false →
        (readOneWithFlags backend (some pi) pol s now u ref flags).2 = s) ∧
    (∀ (backend : BackendFn) (stored presented : GoString) (peer : Option PeerInfo)
        (pol : Policy) (s : ServerState) (now : Int) (u : Bool) (reqRef : GoString)
        (flags : List GoString),
        ¬ presented = stored →
        (serveRead backend stored presented peer pol s now u reqRef flags).2 = s) ∧
    (∀ (backend : BackendFn) (s : ServerState) (now : Int) (ref : GoString)
        (flags : List GoString),
        Cache.Get s.cache (cacheKey ref flags) now = none →
        s.mgr.state ≠ .authenticated →
        ((readOneCore backend s now false ref flags).2).mgr.lastActivity =
          s.mgr.lastActivity) ∧
    (∀ (backend : BackendFn) (s : ServerState) (now : Int) (u : Bool) (ref : GoString)
        (flags : List GoString) (e : GoString),
        Cache.Get s.cache (cacheKey ref flags) now = none →
        s.mgr.state = .authenticated →
        backend ref flags = .error e →
        ((readOneCore backend s now u ref flags).2).mgr = s.mgr) := by
  refine ⟨?_, ?_, ?_, ?_, ?_, ?_, ?_, ?_⟩
  · intro backend s now u ref flags x hget
    simp [readOneWithFlags, readOneCore, hget]
  · intro backend s now u ref flags v hget hauth hbk
    have hget2 : Cache.Get (Cache.IncInFlight (Cache.IncMiss s.cache)) (cacheKey ref flags)
        now = none := by rw [cache_get_counters]; exact hget
    simp [readOneCore, hget, hget2, sessionAwareRead, ValidateSession, SessionState.IsActive,
      hauth, hbk, UpdateActivity]
  · intro s now h
    simp [UpdateActivity, h]
  · intro s now h
    simp [UpdateActivity, h]
  · intro backend pi pol s now u ref flags hden
    simp [readOneWithFlags, hden]
  · intro backend stored presented peer pol s now u reqRef flags hmm
    unfold serveRead auth
    rw [if_pos (Or.inr hmm)]
  · intro backend s now ref flags hget hnauth
    have hget2 : Cache.Get (Cache.IncInFlight (Cache.IncMiss s.cache)) (cacheKey ref flags)
        now = none := by rw [cache_get_counters]; exact hget
    cases hst : s.mgr.state with
    | authenticated => exact absurd hst hnauth
    | unknown =>
      simp [readOneCore, hget, hget2, sessionAwareRead, ValidateSession,
        SessionState.IsActive, SessionState.RequiresUnlock, hst]
    | locked =>
      simp [readOneCore, hget, hget2, sessionAwareRead, ValidateSession,
        SessionState.IsActive, SessionState.RequiresUnlock, hst]
    | expired =>
      simp [readOneCore, hget, hget2, sessionAwareRead, ValidateSession,
        SessionState.IsActive, SessionState.RequiresUnlock, hst]
  · intro backend s now u ref flags e hget hauth hbk
    have hget2 : Cache.Get (Cache.IncInFlight (Cache.IncMiss s.cache)) (cacheKey ref flags)
        now = none := by rw [cache_get_counters]; exact hget
    simp [readOneCore, hget, hget2, sessionAwareRead, ValidateSession, SessionState.IsActive,
      hauth, hbk]

/-- C7 witness: the activity-stamp theorem's parts applied at concrete
states: a hit (manager untouched), a stamped miss, the `UpdateActivity`
gating, a policy denial, an auth failure, a failed validation, and a
backend error. -/
theorem activity_stamp_witness :
    ((readOneWithFlags beOk none polDenyAll sHit 10 true (gs "op://a") []).2).mgr = sHit.mgr ∧
    ((readOneCore beOk s0 10 true (gs "op://x") []).2).mgr.lastActivity = 10 ∧
    UpdateActivity sLocked 10 = sLocked ∧
    (UpdateActivity s0 10).mgr.lastActivity = 10 ∧
    (readOneWithFlags beOk (some ⟨1, gs "/bin/bad"⟩) polDenyAll s0 10 true (gs "op://x") []).2 =
      s0 ∧
    (serveRead beOk (gs "tok") (gs "bad") none polDenyAll s0 10 true (gs "op://x") []).2 = s0 ∧
    ((readOneCore beOk sLocked 10 false (gs "op://x") []).2).mgr.lastActivity =
      sLocked.mgr.lastActivity ∧
    ((readOneCore beErr s0 10 true (gs "op://x") []).2).mgr = s0.mgr :=
  ⟨activity_stamp.1 beOk sHit 10 true (gs "op://a") [] (gs "v", 20, 3) (by decide),
   activity_stamp.2.1 beOk s0 10 true (gs "op://x") [] (gs "v") (by decide) rfl rfl,
   activity_stamp.2.2.1 sLocked 10 (by decide),
   activity_stamp.2.2.2.1 s0 10 rfl,
   activity_stamp.2.2.2.2.1 beOk ⟨1, gs "/bin/bad"⟩ polDenyAll s0 10 true (gs "op://x") []
     (by decide),
   activity_stamp.2.2.2.2.2.1 beOk (gs "tok") (gs "bad") none polDenyAll s0 10 true
     (gs "op://x") [] (by decide),
   activity_stamp.2.2.2.2.2.2.1 beOk sLocked 10 (gs "op://x") [] (by decide) (by decide),
   activity_stamp.2.2.2.2.2.2.2 beErr s0 10 true (gs "op://x") [] (gs "boom") (by decide)
     rfl rfl⟩

theorem readOneCore_ICE (backend : BackendFn) (s : ServerState) (now : Int) (u : Bool)
    (ref : GoString) (flags : List GoString) (h : InactiveCacheEmpty s) :
    InactiveCacheEmpty ((readOneCore backend s now u ref flags).2) := by
  unfold InactiveCacheEmpty at h ⊢
  cases hget : Cache.Get s.cache (cacheKey ref flags) now with
  | some x =>
    obtain ⟨v, exp, cached⟩ := x
    simpa [readOneCore, hget, Cache.IncHit, Cache.DecInFlight] using h
  | none =>
    have hget2 : Cache.Get (Cache.IncInFlight (Cache.IncMiss s.cache)) (cacheKey ref flags)
        now = none := by rw [cache_get_counters]; exact hget
    cases hst : s.mgr.state with
    | authenticated =>
      cases hbk : backend ref flags with
      | error e =>
        simp [readOneCore, hget, hget2, sessionAwareRead, ValidateSession,
          SessionState.IsActive, hst, hbk, Cache.DecInFlight]
      | ok v =>
        simp [readOneCore, hget, hget2, sessionAwareRead, ValidateSession,
          SessionState.IsActive, hst, hbk, UpdateActivity, Cache.DecInFlight]
    | unknown =>
      have hdata : s.cache.data = [] := h (by rw [hst]; simp)
      cases u with
      | true =>
        cases hbk : backend ref flags with
        | error e =>
          simp [readOneCore, hget, hget2, sessionAwareRead, ValidateSession,
            SessionState.IsActive, SessionState.RequiresUnlock, hst, hbk,
            MarkAuthenticated, Cache.DecInFlight]
        | ok v =>
          simp [readOneCore, hget, hget2, sessionAwareRead, ValidateSession,
            SessionState.IsActive, SessionState.RequiresUnlock, hst, hbk,
            MarkAuthenticated, UpdateActivity, Cache.DecInFlight]
      | false =>
        intro _
        simp only [readOneCore, hget, hget2, sessionAwareRead, ValidateSession,
          SessionState.IsActive, SessionState.RequiresUnlock, hst]
        simp [decInFlight_data, Cache.IncMiss, Cache.IncInFlight, hdata]
    | locked =>
      have hdata : s.cache.data = [] := h (by rw [hst]; simp)
      cases u with
      | true =>
        cases hbk : backend ref flags with
        | error e =>
          simp [readOneCore, hget, hget2, sessionAwareRead, ValidateSession,
            SessionState.IsActive, SessionState.RequiresUnlock, hst, hbk,
            MarkAuthenticated, Cache.DecInFlight]
        | ok v =>
          simp [readOneCore, hget, hget2, sessionAwareRead, ValidateSession,
            SessionState.IsActive, SessionState.RequiresUnlock, hst, hbk,
            MarkAuthenticated, UpdateActivity, Cache.DecInFlight]
      | false =>
        intro _
        simp only [readOneCore, hget, hget2, sessionAwareRead, ValidateSession,
          SessionState.IsActive, SessionState.RequiresUnlock, hst]
        simp [decInFlight_data, Cache.IncMiss, Cache.IncInFlight, hdata]
    | expired =>
      have hdata : s.cache.data = [] := h (by rw [hst]; simp)
      cases u with
      | true =>
        cases hbk : backend ref flags with
        | error e =>
          simp [readOneCore, hget, hget2, sessionAwareRead, ValidateSession,
            SessionState.IsActive, SessionState.RequiresUnlock, hst, hbk,
            MarkAuthenticated, Cache.DecInFlight]
        | ok v =>
          simp [readOneCore, hget, hget2, sessionAwareRead, ValidateSession,
            SessionState.IsActive, SessionState.RequiresUnlock, hst, hbk,
            MarkAuthenticated, UpdateActivity, Cache.DecInFlight]
      | false =>
        intro _
        simp only [readOneCore, hget, hget2, sessionAwareRead, ValidateSession,
          SessionState.IsActive, SessionState.RequiresUnlock, hst]
        simp [decInFlight_data, Cache.IncMiss, Cache.IncInFlight, hdata]

theorem serveRead_ICE (backend : BackendFn) (stored presented : GoString)
    (peer : Option PeerInfo) (pol : Policy) (s : ServerState) (now : Int) (u : Bool)
    (reqRef : GoString) (reqFlags : List GoString) (h : InactiveCacheEmpty s) :
    InactiveCacheEmpty ((serveRead backend stored presented peer pol s now u reqRef reqFlags).2) := by
  unfold serveRead
  cases hauth : auth stored presented with
  | some r => simpa using h
  | none =>
    simp only []
    unfold handleRead
    by_cases href : goTrimSpace reqRef = []
    · simpa [href] using h
    · simp only [if_neg href]
      cases peer with
      | none =>
        have := readOneCore_ICE backend s now u (goTrimSpace reqRef) reqFlags h
        cases hro : readOneCore backend s now u (goTrimSpace reqRef) reqFlags with
        | mk res s' =>
          rw [hro] at this
          cases res with
          | error e => simpa [readOneWithFlags, hro] using this
          | ok rr => simpa [readOneWithFlags, hro] using this
      | some pi =>
        by_cases hden : validateAccess pol pi (goTrimSpace reqRef) = false
        · simpa [readOneWithFlags, hden] using h
        · have hden' : validateAccess pol pi (goTrimSpace reqRef) = true := by
            simpa using hden
          have := readOneCore_ICE backend s now u (goTrimSpace reqRef) reqFlags h
          cases hro : readOneCore backend s now u (goTrimSpace reqRef) reqFlags with
          | mk res s' =>
            rw [hro] at this
            cases res with
            | error e => simpa [readOneWithFlags, hden', hro] using this
            | ok rr => simpa [readOneWithFlags, hden', hro] using this

theorem checkIdleTimeout_ICE (s : ServerState) (now : Int) (h : InactiveCacheEmpty s) :
    InactiveCacheEmpty (checkIdleTimeout s now) := by
  unfold checkIdleTimeout
  by_cases hst : s.mgr.state ≠ .authenticated
  · simpa [hst] using h
  · simp only [if_neg hst]
    by_cases hto : s.mgr.config.sessionIdleTimeout > 0 ∧
        now - s.mgr.lastActivity > s.mgr.config.sessionIdleTimeout
    · intro _
      simp [hto, executeLockCallback, Cache.Clear]
    · simpa [hto] using h

theorem markLocked_ICE (s : ServerState) (now : Int) (h : InactiveCacheEmpty s) :
    InactiveCacheEmpty (MarkLocked s now) := by
  unfold MarkLocked
  by_cases hst : s.mgr.state ≠ .locked
  · intro _
    simp [hst, executeLockCallback, Cache.Clear]
  · simpa [hst] using h

theorem validateSession_ICE (s : ServerState) (now : Int) (u : Bool)
    (h : InactiveCacheEmpty s) : InactiveCacheEmpty ((ValidateSession s now u).2) := by
  unfold ValidateSession
  cases hst : s.mgr.state with
  | authenticated => simpa [SessionState.IsActive] using h
  | unknown =>
    have hdata : s.cache.data = [] := h (by rw [hst]; simp)
    cases u with
    | true => simp [SessionState.IsActive, SessionState.RequiresUnlock, MarkAuthenticated,
        InactiveCacheEmpty]
    | false =>
      intro _
      simpa [SessionState.IsActive, SessionState.RequiresUnlock] using hdata
  | locked =>
    have hdata : s.cache.data = [] := h (by rw [hst]; simp)
    cases u with
    | true => simp [SessionState.IsActive, SessionState.RequiresUnlock, MarkAuthenticated,
        InactiveCacheEmpty]
    | false =>
      intro _
      simpa [SessionState.IsActive, SessionState.RequiresUnlock] using hdata
  | expired =>
    have hdata : s.cache.data = [] := h (by rw [hst]; simp)
    cases u with
    | true => simp [SessionState.IsActive, SessionState.RequiresUnlock, MarkAuthenticated,
        InactiveCacheEmpty]
    | false =>
      intro _
      simpa [SessionState.IsActive, SessionState.RequiresUnlock] using hdata

theorem cleanup_ICE (s : ServerState) (now : Int) (h : InactiveCacheEmpty s) :
    InactiveCacheEmpty { s with cache := (Cache.CleanupExpired s.cache now).1 } := by
  intro hst
  have hdata : s.cache.data = [] := h hst
  simp [Cache.CleanupExpired, hdata]

/-- One step preserves the invariant. -/
theorem step_ICE {s s' : ServerState} (hstep : Step s s') (h : InactiveCacheEmpty s) :
    InactiveCacheEmpty s' := by
  induction hstep with
  | serve backend stored presented peer pol s now u reqRef reqFlags =>
    exact serveRead_ICE backend stored presented peer pol s now u reqRef reqFlags h
  | idle s now => exact checkIdleTimeout_ICE s now h
  | markLocked s now => exact markLocked_ICE s now h
  | sessionUnlock s now u => exact validateSession_ICE s now u h
  | cleanup s now => exact cleanup_ICE s now h

/-- Every reachable state satisfies the inductive invariant. -/
theorem reachable_ICE (cfg : SessionConfig) (ttl : Int) (now0 : Int) (s : ServerState)
    (hr : Reachable cfg ttl now0 s) : InactiveCacheEmpty s := by
  induction hr with
  | init => intro _; rfl
  | step _ hstep ih => exact step_ICE hstep ih

/-- C6: a forced `MarkLocked` from any non-Locked state, and an
idle-timeout expiry that locks, both fire the lock callback and leave the
cache empty; and in every reachable daemon state in which the session is
Locked the cache size is 0 — so the cleared cache is observable before any
further request is served. -/
theorem lock_clears_cache :
    (∀ (s : ServerState) (now : Int), s.mgr.state ≠ .locked →
        (MarkLocked s now).cache.data = []) ∧
    (∀ (s : ServerState) (now : Int),
        (checkIdleTimeout s now).mgr.state = .locked → s.mgr.state ≠ .locked →
        (checkIdleTimeout s now).cache.data = []) ∧
    (∀ (cfg : SessionConfig) (ttl now0 : Int) (s : ServerState),
        Reachable cfg ttl now0 s → s.mgr.state = .locked →
        (Cache.Stats s.cache).1 = 0) := by
  refine ⟨?_, ?_, ?_⟩
  · intro s now hst
    simp [MarkLocked, hst, executeLockCallback, Cache.Clear]
  · intro s now hlock hst
    unfold checkIdleTimeout at hlock ⊢
    by_cases hauth : s.mgr.state ≠ .authenticated
    · rw [if_pos hauth] at hlock
      exact absurd hlock hst
    · rw [if_neg hauth] at hlock ⊢
      by_cases hto : s.mgr.config.sessionIdleTimeout > 0 ∧
          now - s.mgr.lastActivity > s.mgr.config.sessionIdleTimeout
      · simp [hto, executeLockCallback, Cache.Clear]
      · rw [if_neg hto] at hlock
        push_neg at hauth
        rw [hauth] at hlock
        exact absurd hlock (by simp)
  · intro cfg ttl now0 s hr hlock
    have h := reachable_ICE cfg ttl now0 s hr (by rw [hlock]; simp)
    simp [Cache.Stats, h]

/-- C6 witness: the lock-clears-cache theorem applied at concrete states —
a forced lock from an authenticated state with a populated cache, an idle
expiry, and a reachable locked daemon state. -/
theorem lock_clears_cache_witness :
    (MarkLocked sHit 9000).cache.data = [] ∧
    (checkIdleTimeout sHit 9000).cache.data = [] ∧
    (Cache.Stats (MarkLocked (initState cfgT 60 0) 5).cache).1 = 0 :=
  ⟨lock_clears_cache.1 sHit 9000 (by decide),
   lock_clears_cache.2.1 sHit 9000 (by decide) (by decide),
   lock_clears_cache.2.2 cfgT 60 0 (MarkLocked (initState cfgT 60 0) 5)
     (Reachable.step Reachable.init (Step.markLocked (initState cfgT 60 0) 5)) (by decide)⟩

/-- C9 counterexample: the empty flag does not begin with `-`, yet
`OpCLI.ReadRefWithFlags` skips it instead of rejecting, and the call
reaches the subprocess-spawn point with the empty flag dropped from the
argv. -/
theorem opcli_empty_flag_cex :
    OpCLI.ReadRefWithFlags (gs "op://a/b/c") [[]] =
      .ok [gs "read", gs "--no-color", gs "op://a/b/c"] ∧
    goHasPrefix ([] : GoString) (gs "-") = false := by
  constructor
  · rfl
  · rfl

/-- `checkFlags` fails whenever some non-empty flag is dash-less or
contains an unsafe character. -/
theorem checkFlags_error :
    ∀ (flags : List GoString) (f : GoString), f ∈ flags → f ≠ [] →
      (goHasPrefix f (gs "-") = false ∨ goContainsAny f unsafeFlagChars = true) →
      ∃ e, checkFlags flags = some e := by
  intro flags
  induction flags with
  | nil => intro f hf; exact absurd hf (List.not_mem_nil f)
  | cons g fs ih =>
    intro f hf hne hbad
    by_cases hg : g = []
    · have hf' : f ∈ fs := by
        cases List.mem_cons.mp hf with
        | inl he => exact absurd (he.trans hg) hne
        | inr h => exact h
      obtain ⟨e, he⟩ := ih f hf' hne hbad
      exact ⟨e, by simp [checkFlags, hg, he]⟩
    · by_cases hd : goHasPrefix g (gs "-") = false
      · exact ⟨.flagNoDash, by simp [checkFlags, hg, hd]⟩
      · by_cases hu : goContainsAny g unsafeFlagChars = true
        · have hd' : goHasPrefix g (gs "-") = true := by simpa using hd
          exact ⟨.flagUnsafe, by simp [checkFlags, hg, hd', hu]⟩
        · have hf' : f ∈ fs := by
            cases List.mem_cons.mp hf with
            | inl he =>
              exfalso
              cases hbad with
              | inl hb => exact hd (he ▸ hb)
              | inr hb => exact hu (he ▸ hb)
            | inr h => exact h
          obtain ⟨e, he⟩ := ih f hf' hne hbad
          have hd' : goHasPrefix g (gs "-") = true := by simpa using hd
          have hu' : goContainsAny g unsafeFlagChars = false := by simpa using hu
          exact ⟨e, by simp [checkFlags, hg, hd', hu', he]⟩

/-- C9 (amended): the external-command backend rejects, without reaching
the subprocess spawn, every reference that does not start with `op://` or
that begins with `-`, and every flag list containing a NON-EMPTY flag that
does not begin with `-` or contains one of `;&|`$()`; empty flags are
skipped by validation and dropped from the argv. -/
theorem opcli_injection_safety :
    (∀ (ref : GoString) (flags : List GoString),
        goHasPrefix ref (gs "op://") = false ∨ goHasPrefix ref (gs "-") = true →
        ∃ e, OpCLI.ReadRefWithFlags ref flags = .error e) ∧
    (∀ (ref : GoString) (flags : List GoString) (f : GoString),
        f ∈ flags → f ≠ [] →
        goHasPrefix f (gs "-") = false ∨ goContainsAny f unsafeFlagChars = true →
        ∃ e, OpCLI.ReadRefWithFlags ref flags = .error e) := by
  constructor
  · intro ref flags href
    unfold OpCLI.ReadRefWithFlags
    by_cases h1 : goTrimSpace ref = []
    · exact ⟨.emptyRef, by simp [h1]⟩
    · by_cases h2 : goHasPrefix ref (gs "-") = true
      · exact ⟨.refDashPrefix, by simp [h1, h2]⟩
      · have h3 : goHasPrefix ref (gs "op://") = false := by
          cases href with
          | inl h => exact h
          | inr h => exact absurd h h2
        have h2' : goHasPrefix ref (gs "-") = false := by simpa using h2
        exact ⟨.refBadScheme, by simp [h1, h2', h3]⟩
  · intro ref flags f hf hne hbad
    unfold OpCLI.ReadRefWithFlags
    by_cases h1 : goTrimSpace ref = []
    · exact ⟨.emptyRef, by simp [h1]⟩
    · by_cases h2 : goHasPrefix ref (gs "-") = true
      · exact ⟨.refDashPrefix, by simp [h1, h2]⟩
      · have h2' : goHasPrefix ref (gs "-") = false := by simpa using h2
        by_cases h3 : goHasPrefix ref (gs "op://") = false
        · exact ⟨.refBadScheme, by simp [h1, h2', h3]⟩
        · have h3' : goHasPrefix ref (gs "op://") = true := by simpa using h3
          obtain ⟨e, he⟩ := checkFlags_error flags f hf hne hbad
          exact ⟨e, by simp [h1, h2', h3', he]⟩

/-- C9 witness: the injection-safety theorem applied at a dash-less
reference, a reference of the wrong scheme, and a shell-metacharacter
flag. -/
theorem opcli_injection_safety_witness :
    (∃ e, OpCLI.ReadRefWithFlags (gs "secret") [] = .error e) ∧
    (∃ e, OpCLI.ReadRefWithFlags (gs "-rf") [] = .error e) ∧
    (∃ e, OpCLI.ReadRefWithFlags (gs "op://a/b/c") [gs "; rm -rf /"] = .error e) :=
  ⟨opcli_injection_safety.1 (gs "secret") [] (Or.inl (by decide)),
   opcli_injection_safety.1 (gs "-rf") [] (Or.inr (by decide)),
   opcli_injection_safety.2 (gs "op://a/b/c") [gs "; rm -rf /"] (gs "; rm -rf /")
     (List.mem_singleton.mpr rfl) (by decide) (Or.inl (by decide))⟩

/-!
## Single-flight proofs
-/

theorem set_get_cases {α : Type} (l : List α) (i j : Nat) (x st : α)
    (h : (l.set i x)[j]? = some st) :
    (j = i ∧ st = x) ∨ (j ≠ i ∧ l[j]? = some st) := by
  by_cases hij : j = i
  · subst hij
    rw [List.getElem?_set_self'] at h
    cases hl : l[j]? with
    | none => rw [hl] at h; exact Option.noConfusion h
    | some y =>
      rw [hl] at h
      simp only [Option.map_eq_map, Option.map_some', Function.const_apply,
        Option.some.injEq] at h
      exact Or.inl ⟨rfl, h.symm⟩
  · right
    refine ⟨hij, ?_⟩
    rwa [List.getElem?_set_ne (fun he => hij he.symm)] at h

theorem distribute_get {reqs : List SF.ReqState} {ws : List Nat} {r : SF.R} {j : Nat}
    {st : SF.ReqState} (h : (SF.distribute reqs ws r)[j]? = some st) :
    st = .done r ∨ reqs[j]? = some st := by
  induction ws generalizing reqs with
  | nil => exact Or.inr h
  | cons w ws ih =>
    have h' : (SF.distribute (reqs.set w (.done r)) ws r)[j]? = some st := h
    cases ih h' with
    | inl he => exact Or.inl he
    | inr he =>
      cases set_get_cases reqs w j (.done r) st he with
      | inl hc => exact Or.inl hc.2
      | inr hc => exact Or.inr hc.2

/-- One enabled action preserves the single-flight invariant. -/
theorem applyStep_inv {backend : Nat → SF.R} {v : Nat} (hb : backend 0 = .ok v)
    {s s' : SF.SFState} {a : SF.Action} (hstep : SF.applyStep backend s a = some s')
    (h : SF.Inv v s) : SF.Inv v s' := by
  obtain ⟨h1, h2, h3, h4, h5, h6⟩ := h
  cases a with
  | cacheGet i =>
    simp only [SF.applyStep] at hstep
    cases hq : s.reqs[i]? with
    | none => rw [hq] at hstep; exact Option.noConfusion hstep
    | some st =>
      rw [hq] at hstep
      cases st <;> try exact Option.noConfusion hstep
      case start =>
      cases hc : s.cache with
      | some w =>
        rw [hc] at hstep
        obtain ⟨hwv, hi1⟩ := h2 w hc
        subst hwv
        have hs' := Option.some.inj hstep
        subst hs'
        unfold SF.Inv
        dsimp only
        refine ⟨h1, ?_, h3, ?_, ?_, ?_⟩
        · intro w1 hw1
          exact ⟨(Option.some.inj hw1).symm, hi1⟩
        · intro _
          exact ⟨fun _ _ _ => rfl, fun _ => rfl⟩
        · intro j hj
          cases set_get_cases _ i j _ _ hj with
          | inl hc' => exact absurd hc'.2 (by simp)
          | inr hc' =>
            obtain ⟨_, hjc, _⟩ := h5 j hc'.2
            rw [hc] at hjc
            exact Option.noConfusion hjc
        · intro j r hj
          cases set_get_cases _ i j _ _ hj with
          | inl hc' =>
            have hr := hc'.2
            simp only [SF.ReqState.done.injEq] at hr
            exact ⟨hr, hi1⟩
          | inr hc' => exact h6 j r hc'.2
      | none =>
        rw [hc] at hstep
        have hs' := Option.some.inj hstep
        subst hs'
        unfold SF.Inv
        dsimp only
        refine ⟨h1, ?_, h3, ?_, ?_, ?_⟩
        · intro w1 hw1
          exact Option.noConfusion hw1
        · intro hi
          exact ⟨fun l ws hfl => hc ▸ (h4 hi).1 l ws hfl, fun hid => hc ▸ (h4 hi).2 hid⟩
        · intro j hj
          cases set_get_cases _ i j _ _ hj with
          | inl hc' => exact absurd hc'.2 (by simp)
          | inr hc' =>
            obtain ⟨hj0, _, ws₀, hfl⟩ := h5 j hc'.2
            exact ⟨hj0, rfl, ws₀, hfl⟩
        · intro j r hj
          cases set_get_cases _ i j _ _ hj with
          | inl hc' => exact absurd hc'.2 (by simp)
          | inr hc' => exact h6 j r hc'.2
  | enter i =>
    simp only [SF.applyStep] at hstep
    cases hq : s.reqs[i]? with
    | none => rw [hq] at hstep; exact Option.noConfusion hstep
    | some st =>
      rw [hq] at hstep
      cases st <;> try exact Option.noConfusion hstep
      case entered =>
      cases hf : s.flight with
      | idle =>
        rw [hf] at hstep
        have hs' := Option.some.inj hstep
        subst hs'
        unfold SF.Inv
        dsimp only
        refine ⟨h1, h2, ?_, ?_, ?_, ?_⟩
        · intro l ws r heq
          simp only [SF.FlightState.running.injEq] at heq
          exact absurd heq.2.2 (by simp)
        · intro hi
          refine ⟨?_, ?_⟩
          · intro l ws _
            exact (h4 hi).2 hf
          · intro he
            exact absurd he (by simp)
        · intro j hj
          cases set_get_cases _ i j _ _ hj with
          | inl hc' => exact absurd hc'.2 (by simp)
          | inr hc' =>
            obtain ⟨hi0, hcn, ws₀, hfl⟩ := h5 j hc'.2
            rw [hf] at hfl
            exact absurd hfl (by simp)
        · intro j r hj
          cases set_get_cases _ i j _ _ hj with
          | inl hc' => exact absurd hc'.2 (by simp)
          | inr hc' => exact h6 j r hc'.2
      | running l ws p =>
        rw [hf] at hstep
        have hs' := Option.some.inj hstep
        subst hs'
        unfold SF.Inv
        dsimp only
        refine ⟨h1, h2, ?_, ?_, ?_, ?_⟩
        · intro l' ws' r heq
          simp only [SF.FlightState.running.injEq] at heq
          exact h3 l ws r (by rw [hf, heq.2.2])
        · intro hi
          refine ⟨?_, ?_⟩
          · intro l' ws' heq
            simp only [SF.FlightState.running.injEq] at heq
            exact (h4 hi).1 l ws (by rw [hf, heq.2.2])
          · intro he
            exact absurd he (by simp)
        · intro j hj
          cases set_get_cases _ i j _ _ hj with
          | inl hc' => exact absurd hc'.2 (by simp)
          | inr hc' =>
            obtain ⟨hi0, hcn, ws₀, hfl⟩ := h5 j hc'.2
            rw [hf] at hfl
            simp only [SF.FlightState.running.injEq] at hfl
            refine ⟨hi0, hcn, i :: ws, ?_⟩
            rw [hfl.1, hfl.2.2]
        · intro j r hj
          cases set_get_cases _ i j _ _ hj with
          | inl hc' => exact absurd hc'.2 (by simp)
          | inr hc' => exact h6 j r hc'.2
  | recheck i =>
    simp only [SF.applyStep] at hstep
    cases hq : s.reqs[i]? with
    | none => rw [hq] at hstep; exact Option.noConfusion hstep
    | some st =>
      rw [hq] at hstep
      cases st <;> try exact Option.noConfusion hstep
      case leaderRecheck =>
      cases hf : s.flight with
      | idle => rw [hf] at hstep; exact Option.noConfusion hstep
      | running l ws p =>
        rw [hf] at hstep
        cases p with
        | some r => exact Option.noConfusion hstep
        | none =>
          dsimp only at hstep
          by_cases hli : l = i
          · rw [if_pos hli] at hstep
            cases hc : s.cache with
            | some w =>
              rw [hc] at hstep
              obtain ⟨hwv, hi1⟩ := h2 w hc
              subst hwv
              have hs' := Option.some.inj hstep
              subst hs'
              unfold SF.Inv
              dsimp only
              refine ⟨h1, ?_, ?_, ?_, ?_, ?_⟩
              · intro w1 hw1
                exact ⟨(Option.some.inj hw1).symm, hi1⟩
              · intro l' ws' r heq
                simp only [SF.FlightState.running.injEq, Option.some.injEq] at heq
                exact ⟨heq.2.2.symm, hi1⟩
              · intro _
                exact ⟨fun l' ws' heq => absurd heq (by simp),
                       fun he => absurd he (by simp)⟩
              · intro j hj
                cases set_get_cases _ i j _ _ hj with
                | inl hc' => exact absurd hc'.2 (by simp)
                | inr hc' =>
                  obtain ⟨hj0, _, _⟩ := h5 j hc'.2
                  exact absurd (hj0.symm.trans hi1) (by decide)
              · intro j r hj
                cases set_get_cases _ i j _ _ hj with
                | inl hc' => exact absurd hc'.2 (by simp)
                | inr hc' => exact h6 j r hc'.2
            | none =>
              rw [hc] at hstep
              have hs' := Option.some.inj hstep
              subst hs'
              have hi0 : s.invocations = 0 := by
                rcases Nat.lt_or_ge s.invocations 1 with hlt | hge
                · omega
                · exfalso
                  have hi1 : s.invocations = 1 := by omega
                  have hcv := (h4 hi1).1 l ws hf
                  rw [hc] at hcv
                  exact Option.noConfusion hcv
              unfold SF.Inv
              dsimp only
              refine ⟨h1, ?_, ?_, ?_, ?_, ?_⟩
              · intro w1 hw1
                exact Option.noConfusion hw1
              · intro l' ws' r heq
                simp only [SF.FlightState.running.injEq] at heq
                exact absurd heq.2.2 (by simp)
              · intro hi
                exact absurd (hi0.symm.trans hi) (by decide)
              · intro j hj
                cases set_get_cases _ i j _ _ hj with
                | inl hc' =>
                  refine ⟨hi0, rfl, ws, ?_⟩
                  rw [hc'.1, hli]
                | inr hc' =>
                  obtain ⟨hj0, hjc, ws₀, hfl⟩ := h5 j hc'.2
                  rw [hf] at hfl
                  simp only [SF.FlightState.running.injEq] at hfl
                  exact absurd (hli ▸ hfl.1.symm) hc'.1
              · intro j r hj
                cases set_get_cases _ i j _ _ hj with
                | inl hc' => exact absurd hc'.2 (by simp)
                | inr hc' => exact h6 j r hc'.2
          · rw [if_neg hli] at hstep
            exact Option.noConfusion hstep
  | invoke i =>
    simp only [SF.applyStep] at hstep
    cases hq : s.reqs[i]? with
    | none => rw [hq] at hstep; exact Option.noConfusion hstep
    | some st =>
      rw [hq] at hstep
      cases st <;> try exact Option.noConfusion hstep
      case leaderCall =>
      cases hf : s.flight with
      | idle => rw [hf] at hstep; exact Option.noConfusion hstep
      | running l ws p =>
        rw [hf] at hstep
        cases p with
        | some r => exact Option.noConfusion hstep
        | none =>
          dsimp only at hstep
          by_cases hli : l = i
          · rw [if_pos hli] at hstep
            have hs' := Option.some.inj hstep
            subst hs'
            obtain ⟨hi0, hcn, _⟩ := h5 i hq
            unfold SF.Inv
            dsimp only
            refine ⟨?_, ?_, ?_, ?_, ?_, ?_⟩
            · omega
            · intro w hw
              rw [hcn] at hw
              exact Option.noConfusion hw
            · intro l' ws' r heq
              simp only [SF.FlightState.running.injEq, Option.some.injEq] at heq
              have hr : r = backend s.invocations := heq.2.2.symm
              rw [hi0, hb] at hr
              exact ⟨hr, by omega⟩
            · intro _
              exact ⟨fun l' ws' heq => absurd heq (by simp),
                     fun he => absurd he (by simp)⟩
            · intro j hj
              cases set_get_cases _ i j _ _ hj with
              | inl hc' => exact absurd hc'.2 (by simp)
              | inr hc' =>
                obtain ⟨_, _, ws₀, hfl⟩ := h5 j hc'.2
                rw [hf] at hfl
                simp only [SF.FlightState.running.injEq] at hfl
                exact absurd (hli ▸ hfl.1.symm) hc'.1
            · intro j r hj
              cases set_get_cases _ i j _ _ hj with
              | inl hc' => exact absurd hc'.2 (by simp)
              | inr hc' =>
                obtain ⟨_, hj1⟩ := h6 j r hc'.2
                exact absurd (hi0.symm.trans hj1) (by decide)
          · rw [if_neg hli] at hstep
            exact Option.noConfusion hstep
  | finish i =>
    simp only [SF.applyStep] at hstep
    cases hq : s.reqs[i]? with
    | none => rw [hq] at hstep; exact Option.noConfusion hstep
    | some st =>
      rw [hq] at hstep
      cases st <;> try exact Option.noConfusion hstep
      case leaderFinish =>
      cases hf : s.flight with
      | idle => rw [hf] at hstep; exact Option.noConfusion hstep
      | running l ws p =>
        rw [hf] at hstep
        cases p with
        | none => exact Option.noConfusion hstep
        | some r =>
          dsimp only at hstep
          by_cases hli : l = i
          · rw [if_pos hli] at hstep
            obtain ⟨hrv, hi1⟩ := h3 l ws r hf
            subst hrv
            have hs' := Option.some.inj hstep
            subst hs'
            unfold SF.Inv
            dsimp only
            refine ⟨?_, ?_, ?_, ?_, ?_, ?_⟩
            · omega
            · intro w hw
              exact ⟨(Option.some.inj hw).symm, hi1⟩
            · intro l' ws' r' heq
              exact absurd heq (by simp)
            · intro _
              exact ⟨fun l' ws' heq => absurd heq (by simp), fun _ => rfl⟩
            · intro j hj
              cases distribute_get hj with
              | inl hc' => exact absurd hc' (by simp)
              | inr hc' =>
                cases set_get_cases _ i j _ _ hc' with
                | inl hc'' => exact absurd hc''.2 (by simp)
                | inr hc'' =>
                  obtain ⟨_, _, ws₀, hfl⟩ := h5 j hc''.2
                  rw [hf] at hfl
                  simp only [SF.FlightState.running.injEq] at hfl
                  exact absurd hfl.2.2 (by simp)
            · intro j r' hj
              cases distribute_get hj with
              | inl hc' =>
                simp only [SF.ReqState.done.injEq] at hc'
                exact ⟨hc', hi1⟩
              | inr hc' =>
                cases set_get_cases _ i j _ _ hc' with
                | inl hc'' =>
                  have hr := hc''.2
                  simp only [SF.ReqState.done.injEq] at hr
                  exact ⟨hr, hi1⟩
                | inr hc'' => exact ⟨(h6 j r' hc''.2).1, hi1⟩
          · rw [if_neg hli] at hstep
            exact Option.noConfusion hstep

/-- The invariant holds initially. -/
theorem initSF_inv (v : Nat) (n : Nat) : SF.Inv v (SF.initSF n) := by
  refine ⟨by simp [SF.initSF], ?_, ?_, ?_, ?_, ?_⟩
  · intro w hw
    exact Option.noConfusion hw
  · intro l ws r heq
    exact SF.FlightState.noConfusion heq
  · intro hi
    exact absurd hi.symm (by simp [SF.initSF])
  · intro j hj
    simp only [SF.initSF, List.getElem?_replicate] at hj
    split at hj
    · exact absurd (Option.some.inj hj) (by simp)
    · exact Option.noConfusion hj
  · intro j r hj
    simp only [SF.initSF, List.getElem?_replicate] at hj
    split at hj
    · exact absurd (Option.some.inj hj) (by simp)
    · exact Option.noConfusion hj

/-- Explicit schedules only visit reachable states. -/
theorem runActions_reach (backend : Nat → SF.R) (init : SF.SFState) :
    ∀ (tr : List SF.Action) (s s' : SF.SFState), SF.ReachSF backend init s →
      SF.runActions backend s tr = some s' → SF.ReachSF backend init s' := by
  intro tr
  induction tr with
  | nil =>
    intro s s' hr hrun
    simp only [SF.runActions, Option.some.injEq] at hrun
    rwa [← hrun]
  | cons a rest ih =>
    intro s s' hr hrun
    simp only [SF.runActions] at hrun
    cases hstep : SF.applyStep backend s a with
    | none => rw [hstep] at hrun; exact Option.noConfusion hrun
    | some s1 =>
      rw [hstep] at hrun
      exact ih s1 s' (SF.ReachSF.step hr hstep) hrun

/-- C1 (amended): when the first backend call succeeds with value `v`, in
every interleaving of any number of requests for one fingerprint the
backend is invoked at most once, and every request that completes observes
the same successful `(value, error) = (v, nil)` — with a completed request
certifying exactly one invocation.  (The counterexample shows this fails
for a failing first call when a request enters the single-flight after
that flight completed.) -/
theorem single_flight_success {backend : Nat → SF.R} {v : Nat} (hb : backend 0 = .ok v)
    (n : Nat) (s : SF.SFState) (hr : SF.ReachSF backend (SF.initSF n) s) :
    s.invocations ≤ 1 ∧
    (∀ (i : Nat) (r : SF.R), s.reqs[i]? = some (SF.ReqState.done r) →
      r = .ok v ∧ s.invocations = 1) := by
  have hinv : SF.Inv v s := by
    induction hr with
    | refl => exact initSF_inv v n
    | step _ hstep ih => exact applyStep_inv hb hstep ih
  exact ⟨hinv.1, hinv.2.2.2.2.2⟩

/-- C1 witness: the single-flight theorem applied to the final state of a
concrete two-request schedule in which request 1 joins request 0's flight:
one invocation, both requests observe `ok 7`. -/
theorem single_flight_success_witness :
    SF.runActions sfBackendOk (SF.initSF 2) sfTraceOk = some sfFinalOk ∧
    sfFinalOk.invocations ≤ 1 ∧
    ((Except.ok 7 : SF.R) = .ok 7 ∧ sfFinalOk.invocations = 1) := by
  have hreach : SF.ReachSF sfBackendOk (SF.initSF 2) sfFinalOk :=
    runActions_reach sfBackendOk (SF.initSF 2) sfTraceOk (SF.initSF 2) sfFinalOk
      SF.ReachSF.refl (by decide)
  refine ⟨by decide, (@single_flight_success sfBackendOk 7 rfl 2 sfFinalOk hreach).1,
    (@single_flight_success sfBackendOk 7 rfl 2 sfFinalOk hreach).2 0 (.ok 7) (by decide)⟩

/-- C1 counterexample: both requests perform their cache check before the
first backend call completes (schedule positions 1 and 5; the first flight
finishes at position 6), yet with a failing backend the second request
starts a fresh flight after the first one was forgotten: the backend is
invoked twice and the two requests observe different errors — refuting
"invoked exactly once" and "same (value, error)" as claimed. -/
theorem single_flight_error_cex :
    SF.runActions sfBackendErr (SF.initSF 2) sfTraceErr = some sfFinalErr ∧
    sfFinalErr.invocations = 2 ∧
    sfFinalErr.reqs[0]? = some (.done (.error 0)) ∧
    sfFinalErr.reqs[1]? = some (.done (.error 1)) ∧
    (Except.error 0 : SF.R) ≠ .error 1 := by
  refine ⟨by decide, rfl, rfl, rfl, by decide⟩

end Opx
